import Mathlib

/-!
Shallow embedding of the YouTube-Transcriber repository's transcript
pipeline, together with proofs about its specification claims.

The repository consists of several JavaScript handler variants.  Pure
string logic (regular-expression extraction, HTML-entity decoding,
whitespace handling) is translated to executable Lean functions on
`List Char` / `String`; stateful handlers are translated to explicit
state passing (the set of existing temporary files is a `List String`),
and network or subprocess effects are represented by
`Except String _`-valued oracle parameters, recorded in a call trace
where a claim is about whether a call happens.

Recursions that consume a suffix of the input (regex-style scanners) are
written with an explicit fuel argument equal to the input length, so that
they are structurally recursive and reduce inside `decide`/`rfl` proofs.
-/

namespace YT

/-! ## Basic string utilities (JS semantics) -/

/-- Whitespace predicate used to model JavaScript `String.prototype.trim`
and `\s` on the ASCII inputs considered here. -/
def isWs (c : Char) : Bool := c.isWhitespace

/-- JS `trim`: drop whitespace from both ends. -/
def trimCharsL (l : List Char) : List Char :=
  ((l.dropWhile isWs).reverse.dropWhile isWs).reverse

/-- JS `String.prototype.trim` at the `String` level. -/
def jsTrim (s : String) : String := ⟨trimCharsL s.data⟩

/-- `Array.prototype.join(' ')`: interleave a single space between elements. -/
def joinSpaceL : List (List Char) → List Char
  | [] => []
  | [t] => t
  | t :: ts => t ++ ' ' :: joinSpaceL ts

/-- `join(' ')` at the `String` level. -/
def joinSpace (ts : List String) : String := ⟨joinSpaceL (ts.map String.data)⟩

/-- Concatenation with a trailing space after every element: the shape
produced by the loop `fullTranscript += part + ' '`. -/
def joinTrailL : List (List Char) → List Char
  | [] => []
  | t :: ts => t ++ ' ' :: joinTrailL ts

/-- Match a literal pattern at the head of the input; on success return the
remainder of the input.  This is the primitive used to model literal parts
of the JavaScript regular expressions. -/
def dropLit : List Char → List Char → Option (List Char)
  | [], l => some l
  | _ :: _, [] => none
  | p :: ps, c :: cs => if p = c then dropLit ps cs else none

/-- JS `String.prototype.includes` on char lists. -/
def containsSubL (needle : List Char) : List Char → Bool
  | [] => needle.isEmpty
  | c :: cs => needle.isPrefixOf (c :: cs) || containsSubL needle cs

/-- `includes` at the `String` level. -/
def includesSub (needle hay : String) : Bool := containsSubL needle.data hay.data

/-- One global literal replacement pass (JS `str.replace(/lit/g, rep)`):
scan left to right, replace each occurrence, continue after the
replacement. `fuel` bounds the recursion (instantiated with the input
length). -/
def replaceAllF (pat rep : List Char) : ℕ → List Char → List Char
  | _, [] => []
  | 0, l => l
  | fuel + 1, c :: cs =>
    match dropLit pat (c :: cs) with
    | some rest => rep ++ replaceAllF pat rep fuel rest
    | none => c :: replaceAllF pat rep fuel cs

/-- JS global literal replace on char lists. -/
def replaceAllL (pat rep l : List Char) : List Char := replaceAllF pat rep l.length l

/-- JS `str.replace(lit, rep)` with a global regex, at the `String` level. -/
def jsReplaceAll (pat rep s : String) : String := ⟨replaceAllL pat.data rep.data s.data⟩

/-- JS `str.replace(lit, rep)` with a plain string pattern: replace only the
first occurrence. -/
def replaceFirstL (pat rep : List Char) : List Char → List Char
  | [] => []
  | c :: cs =>
    match dropLit pat (c :: cs) with
    | some rest => rep ++ rest
    | none => c :: replaceFirstL pat rep cs

/-- First-occurrence replace at the `String` level. -/
def jsReplaceFirst (pat rep s : String) : String := ⟨replaceFirstL pat.data rep.data s.data⟩

/-! ## URL/ID extractor

`getVideoId` in the repository is
`url.match(/(?:youtube\.com\/watch\?v=|youtu\.be\/|youtube\.com\/embed\/|youtube\.com\/v\/)([^&\n?#]+)/)`
(four alternatives in netlify/functions/transcribe.js and unnamed
part_002; only the first three alternatives in unnamed part_000 and
part_001), returning the first capture group or null. -/

/-- Characters that terminate the captured video id in `([^&\n?#]+)`. -/
def stopChar (c : Char) : Bool := c = '&' || c = '\n' || c = '?' || c = '#'

/-- Try each regex alternative (a literal prefix) at the current position;
on a literal match, the capture group `([^&\n?#]+)` greedily takes the
following non-stop characters and must be non-empty. -/
def tryPatterns : List (List Char) → List Char → Option (List Char)
  | [], _ => none
  | p :: ps, l =>
    match dropLit p l with
    | some rest =>
      let cap := rest.takeWhile (fun c => !stopChar c)
      if cap.isEmpty then tryPatterns ps l else some cap
    | none => tryPatterns ps l

/-- Scan the input left to right for the first position where one of the
alternatives matches with a non-empty capture (JS `String.prototype.match`
with a non-global regex, returning the first capture group). -/
def extractIdAux (pats : List (List Char)) : List Char → Option (List Char)
  | [] => none
  | c :: cs =>
    match tryPatterns pats (c :: cs) with
    | some id => some id
    | none => extractIdAux pats cs

/-- Alternatives of the four-branch extractor regex
(netlify/functions/transcribe.js lines 10-14 and 279-283, unnamed
part_002). -/
def patterns4 : List (List Char) :=
  ["youtube.com/watch?v=".data, "youtu.be/".data,
   "youtube.com/embed/".data, "youtube.com/v/".data]

/-- Alternatives of the three-branch extractor regex
(unnamed part_000 lines 12-16, unnamed part_001); `youtube.com/v/` is
absent. -/
def patterns3 : List (List Char) :=
  ["youtube.com/watch?v=".data, "youtu.be/".data, "youtube.com/embed/".data]

/-! ## Caption XML decoder (netlify/functions/transcribe.js,
`getYouTubeTranscript`, lines 343-365) -/

/-- Drop input up to and including the first `'>'`; `none` if there is no
`'>'` (in which case the tag regex `<[^>]*>` has no match at this `'<'`). -/
def findGt : List Char → Option (List Char)
  | [] => none
  | c :: cs => if c = '>' then some cs else findGt cs

/-- `str.replace(/<[^>]*>/g, '')`: delete every maximal `<...>` span; a
`'<'` with no later `'>'` is kept. -/
def stripTagsF : ℕ → List Char → List Char
  | _, [] => []
  | 0, l => l
  | fuel + 1, c :: cs =>
    if c = '<' then
      match findGt cs with
      | some rest => stripTagsF fuel rest
      | none => c :: stripTagsF fuel cs
    else c :: stripTagsF fuel cs

/-- Tag stripping on char lists. -/
def stripTags (l : List Char) : List Char := stripTagsF l.length l

/-- Tag stripping at the `String` level. -/
def stripTagsStr (s : String) : String := ⟨stripTags s.data⟩

/-- Try to match `/<text[^>]*>([^<]*)<\/text>/` at the current position,
returning the whole match together with the rest of the input.
(`[^>]*` is a greedy span of non-`>` characters that must be followed by
`>` — i.e. everything up to the first `>`; similarly `([^<]*)` captures
everything up to the first `<`, which must start a literal `</text>`.) -/
def tryMatchText (l : List Char) : Option (List Char × List Char) :=
  match dropLit "<text".data l with
  | none => none
  | some r1 =>
    let attrs := r1.takeWhile (fun c => c != '>')
    match r1.dropWhile (fun c => c != '>') with
    | [] => none
    | c :: r3 =>
      if c = '>' then
        let inner := r3.takeWhile (fun c => c != '<')
        match dropLit "</text>".data (r3.dropWhile (fun c => c != '<')) with
        | none => none
        | some rest =>
          some ("<text".data ++ attrs ++ '>' :: (inner ++ "</text>".data), rest)
      else none

/-- `transcriptXml.match(/<text[^>]*>([^<]*)<\/text>/g)`: all
non-overlapping matches, scanning left to right. -/
def scanTextF : ℕ → List Char → List (List Char)
  | _, [] => []
  | 0, _ => []
  | fuel + 1, c :: cs =>
    match tryMatchText (c :: cs) with
    | some (m, rest) => m :: scanTextF fuel rest
    | none => scanTextF fuel cs

/-- Global `<text>` matching on char lists. -/
def scanTextMatches (l : List Char) : List (List Char) := scanTextF l.length l

namespace Netlify

/-- `getVideoId` from netlify/functions/transcribe.js (defined twice
there, identically, at lines 10-14 and 279-283). -/
def getVideoId (url : String) : Option String :=
  (extractIdAux patterns4 url.data).map String.mk

/-- The five sequential entity replacements applied to each caption
segment (lines 354-358): `&amp;` first, then `&lt;`, `&gt;`, `&quot;`,
`&#39;`, each as a full global pass over the intermediate string. -/
def decodeEntities (text : String) : String :=
  jsReplaceAll "&#39;" "\x27"
    (jsReplaceAll "&quot;" "\""
      (jsReplaceAll "&gt;" ">"
        (jsReplaceAll "&lt;" "<"
          (jsReplaceAll "&amp;" "&" text))))

/-- Per-match cleaning (lines 350-359): strip tags, trim, then decode the
five entities sequentially. -/
def cleanSegment (m : String) : String := decodeEntities (jsTrim (stripTagsStr m))

/-- The transcript string built by lines 343-361 before the length guard:
`none` when the regex found no `<text>` matches at all (in which case the
code throws "No transcript text found in XML"). -/
def captionTranscriptOf (transcriptXml : String) : Option String :=
  let textMatches := (scanTextMatches transcriptXml.data).map String.mk
  if textMatches.length = 0 then none
  else some (joinSpace ((textMatches.map cleanSegment).filter (fun t => t.length > 0)))

/-- Lines 343-365 of `getYouTubeTranscript`: decode the caption XML or
throw; the decoded transcript is returned only when it has at least 10
characters. -/
def parseCaptionXml (transcriptXml : String) : Except String String :=
  match captionTranscriptOf transcriptXml with
  | none => .error "No transcript text found in XML"
  | some transcript =>
    if transcript = "" ∨ transcript.length < 10 then .error "Transcript too short or empty"
    else .ok transcript

end Netlify

/-! ## Well-formed timed-text payload builder (for the decoder theorems):
a list of (attributes, text) segments rendered as `<text a>t</text>`
elements. -/

/-- Characters of one `<text>` element. -/
def segChars (p : String × String) : List Char :=
  "<text".data ++ p.1.data ++ '>' :: (p.2.data ++ "</text>".data)

/-- Characters of a whole timed-text payload. -/
def mkXmlL : List (String × String) → List Char
  | [] => []
  | p :: ps => segChars p ++ mkXmlL ps

/-- A timed-text payload of `<text attrs>text</text>` elements. -/
def mkXml (segs : List (String × String)) : String := ⟨mkXmlL segs⟩

/-! ## Spec-side decoder (the claim's words, for comparison):
a single decoding pass over the five entities, and whitespace-run
collapsing of the final transcript. -/

/-- The five standard HTML entities and their decodings. -/
def entityTable : List (List Char × Char) :=
  [("&amp;".data, '&'), ("&lt;".data, '<'), ("&gt;".data, '>'),
   ("&quot;".data, '"'), ("&#39;".data, '\x27')]

/-- Try to read one entity at the current position. -/
def tryEntity : List (List Char × Char) → List Char → Option (Char × List Char)
  | [], _ => none
  | (pat, ch) :: es, l =>
    match dropLit pat l with
    | some rest => some (ch, rest)
    | none => tryEntity es l

/-- Single-pass entity decoding: each source character is consumed exactly
once, so `&amp;lt;` decodes to `&lt;` (never to `<`). -/
def decodeOnePassF : ℕ → List Char → List Char
  | _, [] => []
  | 0, l => l
  | fuel + 1, c :: cs =>
    match tryEntity entityTable (c :: cs) with
    | some (ch, rest) => ch :: decodeOnePassF fuel rest
    | none => c :: decodeOnePassF fuel cs

/-- Single-pass entity decoding at the `String` level. -/
def decodeOnePass (s : String) : String := ⟨decodeOnePassF s.data.length s.data⟩

/-- Collapse every run of whitespace to a single space. -/
def collapseWsF : ℕ → List Char → List Char
  | _, [] => []
  | 0, l => l
  | fuel + 1, c :: cs =>
    if isWs c then ' ' :: collapseWsF fuel (cs.dropWhile isWs)
    else c :: collapseWsF fuel cs

/-- Whitespace-run collapsing at the `String` level. -/
def collapseWs (s : String) : String := ⟨collapseWsF s.data.length s.data⟩

/-- Per-segment cleaning as the specification claim words it: strip
markup, trim, decode the five entities in a single pass. -/
def specCleanSegment (m : String) : String := decodeOnePass (jsTrim (stripTagsStr m))

/-- The decoder exactly as the specification claim describes it: strip
markup, single-pass entity decoding, drop segments empty after trimming,
join with a single space, collapse whitespace runs in the result. -/
def specTranscriptOf (transcriptXml : String) : Option String :=
  let textMatches := (scanTextMatches transcriptXml.data).map String.mk
  if textMatches.length = 0 then none
  else some (collapseWs (joinSpace
    ((textMatches.map specCleanSegment).filter (fun t => t.length > 0))))

/-! ## Caption track selection (netlify/functions/transcribe.js lines
314-327) -/

/-- One entry of `playerCaptionsTracklistRenderer.captionTracks`. -/
structure CaptionTrack where
  languageCode : String
  baseUrl : Option String
deriving DecidableEq, Repr

namespace Netlify

/-- Lines 321-323:
`captionTracks.find(t => t.languageCode === 'en' || t.languageCode === 'en-US') || captionTracks[0]`. -/
def selectTrack (captionTracks : List CaptionTrack) : Option CaptionTrack :=
  match captionTracks.find? (fun track =>
      track.languageCode == "en" || track.languageCode == "en-US") with
  | some track => some track
  | none => captionTracks.head?

end Netlify

/-- The selection predicate as the specification claim words it: language
code exactly `en`, or with prefix `en-`. -/
def claimEnTrack (track : CaptionTrack) : Bool :=
  track.languageCode == "en" || "en-".data.isPrefixOf track.languageCode.data

/-! ## Video title lookup (netlify/functions/transcribe.js lines 375-393) -/

/-- Try to match `/<title>([^<]+)<\/title>/` at the current position,
returning the capture group (which must be non-empty). -/
def tryMatchTitle (l : List Char) : Option (List Char) :=
  match dropLit "<title>".data l with
  | none => none
  | some r1 =>
    let inner := r1.takeWhile (fun c => c != '<')
    if inner.isEmpty then none
    else
      match dropLit "</title>".data (r1.dropWhile (fun c => c != '<')) with
      | none => none
      | some _ => some inner

/-- First match of the title regex in the page HTML. -/
def findTitleAux : List Char → Option (List Char)
  | [] => none
  | c :: cs =>
    match tryMatchTitle (c :: cs) with
    | some inner => some inner
    | none => findTitleAux cs

namespace Netlify

/-- `getVideoTitle`: any fetch failure, and any page without a `<title>`
match, falls back to "Unknown Title"; the function never throws.  The
outcome of the page fetch is an oracle argument. -/
def getVideoTitle (fetchOutcome : Except String String) : String :=
  match fetchOutcome with
  | .error _ => "Unknown Title"
  | .ok html =>
    match findTitleAux html.data with
    | some inner => jsTrim (jsReplaceFirst " - YouTube" "" ⟨inner⟩)
    | none => "Unknown Title"

end Netlify

/-! ## HTTP envelope model -/

/-- The parts of a Netlify `event` the handlers read. `bodyUrl` is the
`url` field of the parsed JSON body. -/
structure Event where
  httpMethod : String
  xApiKey : Option String
  bodyUrl : Option String
deriving DecidableEq, Repr

/-- The JSON response body; absent fields are `none`. -/
structure RBody where
  success : Option Bool := none
  transcript : Option String := none
  videoId : Option String := none
  title : Option String := none
  method : Option String := none
  error : Option String := none
deriving DecidableEq, Repr

/-- An HTTP response (CORS headers, identical on every response, are not
modelled). -/
structure HResponse where
  statusCode : ℕ
  body : Option RBody := none
deriving DecidableEq, Repr

/-- `r` carries a JSON body with `success: false`. -/
def bodySuccessFalse (r : HResponse) : Prop :=
  ∃ b, r.body = some b ∧ b.success = some false

/-- The throwing `validateApiKey(apiKey)` shared verbatim by several
handler files: a missing (or, by JS falsiness, empty) key throws
"API key is required"; a key different from `process.env.API_KEY` throws
"Invalid API key". -/
def validateApiKey (envApiKey : Option String) (apiKey : Option String) : Except String Unit :=
  if apiKey = none ∨ apiKey = some "" then .error "API key is required"
  else if apiKey ≠ envApiKey then .error "Invalid API key"
  else .ok ()

namespace Netlify

/-- The catch block of the caption handler (lines 462-492): map the error
message to a status code and user-facing message; every branch returns
`success: false`. -/
def mapCatchError (e : String) : HResponse :=
  if includesSub "API key" e then
    ⟨401, some { success := some false, error := some e }⟩
  else if includesSub "No captions data found" e then
    ⟨404, some { success := some false, error := some "No captions available for this video" }⟩
  else if includesSub "No caption tracks available" e then
    ⟨404, some { success := some false, error := some "Captions are disabled for this video" }⟩
  else if includesSub "HTTP 404" e then
    ⟨404, some { success := some false, error := some "Video not found or is private" }⟩
  else if includesSub "HTTP 403" e then
    ⟨403, some { success := some false, error := some "Access denied - video may be restricted" }⟩
  else ⟨500, some { success := some false, error := some "Failed to extract transcript" }⟩

/-- The caption handler (netlify/functions/transcribe.js lines 395-494).
The two network lookups started by `Promise.all([getYouTubeTranscript,
getVideoTitle])` are oracle arguments: `transcriptOutcome` is the settled
result of `getYouTubeTranscript` (rejection = `.error`), and
`titleFetchOutcome` is the raw page fetch inside `getVideoTitle` (which
itself never rejects). -/
def handler (envApiKey : Option String) (event : Event)
    (transcriptOutcome titleFetchOutcome : Except String String) : HResponse :=
  if event.httpMethod = "OPTIONS" then ⟨204, none⟩
  else if event.httpMethod ≠ "POST" then
    ⟨405, some { error := some "Method not allowed" }⟩
  else
    match validateApiKey envApiKey event.xApiKey with
    | .error e => mapCatchError e
    | .ok _ =>
      if event.bodyUrl = none ∨ event.bodyUrl = some "" then
        ⟨400, some { success := some false, error := some "YouTube URL is required" }⟩
      else
        match getVideoId (event.bodyUrl.getD "") with
        | none => ⟨400, some { success := some false, error := some "Invalid YouTube URL" }⟩
        | some videoId =>
          match transcriptOutcome with
          | .error e => mapCatchError e
          | .ok transcript =>
            ⟨200, some { success := some true,
                         transcript := some transcript,
                         videoId := some videoId,
                         title := some (getVideoTitle titleFetchOutcome),
                         method := some "youtube-captions" }⟩

end Netlify

namespace Part002

/-- `getVideoId` from unnamed part_002 (same four-alternative regex as the
netlify file). -/
def getVideoId (url : String) : Option String :=
  (extractIdAux patterns4 url.data).map String.mk

end Part002

namespace Part000

/-- `getVideoId` from unnamed part_000: its regex has only three
alternatives; `youtube.com/v/` is absent. -/
def getVideoId (url : String) : Option String :=
  (extractIdAux patterns3 url.data).map String.mk

end Part000

namespace Part001

/-- `getVideoId` from unnamed part_001 (same three-alternative regex as
part_000). -/
def getVideoId (url : String) : Option String :=
  (extractIdAux patterns3 url.data).map String.mk

end Part001

/-! ## functions/transcribe/index.js : audio-first handler with API-key
check.  Network effects (the ytdl audio download and the Whisper call) are
oracles whose invocations are recorded in a trace list, so that "no
network call happens before X" is the statement "the trace is empty". -/

namespace FI

/-- Outcomes of the external collaborators used by this handler. -/
structure Pipeline where
  urlValid : Bool
  videoId : String
  downloadOutcome : Except String Unit
  transcribeOutcome : Except String String
deriving Repr

/-- The catch block (lines 111-121): 401 iff the message mentions
"API key", else 500. -/
def catchResponse (e : String) : HResponse :=
  ⟨if includesSub "API key" e then 401 else 500,
   some { success := some false,
          error := some (if e = "" then "Failed to transcribe video" else e) }⟩

/-- The handler of functions/transcribe/index.js.  The second component is
the trace of network calls made. -/
def handler (envApiKey : Option String) (event : Event) (px : Pipeline) :
    HResponse × List String :=
  if event.httpMethod = "OPTIONS" then (⟨204, none⟩, [])
  else if event.httpMethod ≠ "POST" then
    (⟨405, some { error := some "Method not allowed" }⟩, [])
  else
    match validateApiKey envApiKey event.xApiKey with
    | .error e => (catchResponse e, [])
    | .ok _ =>
      if event.bodyUrl = none ∨ event.bodyUrl = some "" then
        (⟨400, some { success := some false, error := some "YouTube URL is required" }⟩, [])
      else if !px.urlValid then
        (⟨400, some { success := some false, error := some "Invalid YouTube URL" }⟩, [])
      else
        match px.downloadOutcome with
        | .error e => (catchResponse e, ["ytdl-download"])
        | .ok _ =>
          match px.transcribeOutcome with
          | .error e => (catchResponse e, ["ytdl-download", "whisper"])
          | .ok t =>
            (⟨200, some { success := some true, transcript := some t }⟩,
             ["ytdl-download", "whisper"])

end FI

/-! ## unnamed part_004: express middleware `validateApiKey` and the
express app that mounts it before the transcription route. -/

namespace Auth

/-- Result of running an express middleware. -/
inductive MwOutcome where
  | next
  | respond (statusCode : ℕ) (success : Bool) (error : String)
deriving DecidableEq, Repr

/-- The middleware from unnamed part_004 lines 1-24: `/health` is exempt;
a missing (or, by JS falsiness, empty) key gets 401, a mismatching key
gets 403, both with `success: false`. -/
def validateApiKey (envApiKey : Option String) (reqPath : String)
    (apiKey : Option String) : MwOutcome :=
  if reqPath = "/health" then .next
  else if apiKey = none ∨ apiKey = some "" then
    .respond 401 false "API key is required"
  else if apiKey ≠ envApiKey then
    .respond 403 false "Invalid API key"
  else .next

/-- An express request as read by this app. -/
structure Req where
  method : String
  path : String
  xApiKey : Option String
  bodyUrl : Option String
deriving DecidableEq, Repr

/-- The express app of unnamed part_004: the `validateApiKey` middleware
runs before the routes, so a middleware response means `transcribeVideo`
(the only network-calling collaborator, an oracle here) is never invoked.
The second component is the trace of collaborator calls. -/
def expressApp (envApiKey : Option String) (transcribeOutcome : Except String String)
    (req : Req) : HResponse × List String :=
  match validateApiKey envApiKey req.path req.xApiKey with
  | .respond s succ err => (⟨s, some { success := some succ, error := some err }⟩, [])
  | .next =>
    if req.method = "POST" ∧ req.path = "/api/transcript" then
      match req.bodyUrl with
      | none =>
        (⟨400, some { success := some false, error := some "YouTube URL is required" }⟩, [])
      | some url =>
        if url = "" then
          (⟨400, some { success := some false, error := some "YouTube URL is required" }⟩, [])
        else
          match transcribeOutcome with
          | .ok t =>
            (⟨200, some { success := some true, transcript := some t }⟩, ["transcribeVideo"])
          | .error _ =>
            (⟨500, some { success := some false, error := some "Failed to transcribe video" }⟩,
             ["transcribeVideo"])
    else if req.method = "GET" ∧ req.path = "/health" then (⟨200, some {}⟩, [])
    else (⟨404, none⟩, [])

end Auth

/-! ## unnamed part_003: download / re-encode / split / transcribe
pipeline with cleanup on both paths. -/

namespace P3

/-- The split plan computed by `splitAudio` (lines 72-108): either the
single original file, or one chunk per index `i < ceil(d / max)`, chunk
`i` being `(start, duration) = (i * max, min max (d - i * max))`. -/
inductive SplitPlan where
  | single
  | parts (chunks : List (ℚ × ℚ))
deriving DecidableEq, Repr

/-- The chunking arithmetic of `splitAudio`: number of parts
`Math.ceil(duration / maxDurationSecs)`, chunk `i` starting at
`i * maxDurationSecs` with duration
`Math.min(maxDurationSecs, duration - start)`. -/
def splitAudioPlan (duration : ℚ) (maxDurationSecs : ℚ := 1800) : SplitPlan :=
  let numParts := (⌈duration / maxDurationSecs⌉).toNat
  if numParts = 1 then .single
  else .parts ((List.range numParts).map fun i : ℕ =>
    ((i : ℚ) * maxDurationSecs, min maxDurationSecs (duration - (i : ℚ) * maxDurationSecs)))

/-- The transcript assembly of the handler loop (lines 174-178 and 192):
`fullTranscript += partTranscript + ' '` per chunk in index order, then
`.trim()`. -/
def assembleTranscript (partTranscripts : List String) : String :=
  jsTrim (partTranscripts.foldl (fun acc t => acc ++ t ++ " ") "")

/-- The temporary file written by `processAudio` (the `Date.now()` suffix
of the real path is elided; it is constant within one request). -/
def mainAudioPath : String := "/tmp/audio.mp3"

/-- Chunk file `i`: `inputPath.replace('.mp3', '-part' + (i+1) + '.mp3')`. -/
def partPath (i : ℕ) : String :=
  jsReplaceFirst ".mp3" ("-part" ++ toString (i + 1) ++ ".mp3") mainAudioPath

/-- Everything that can vary between runs of the part_003 handler:
the request fields and the outcomes of the external collaborators.
Inside `splitAudio`, all chunk ffmpeg jobs are started concurrently
(lines 88-105): `splitFails = some e` means one of them rejects the
promise with `e`, and `chunkWritten i` says whether chunk `i`'s output
file is on disk at that moment (jobs that already finished have written
theirs); when `splitFails = none` every job completes and all chunk
files exist.  `unlinkFails p` says whether `fs.unlink(p)` rejects. -/
structure Scenario where
  envApiKey : Option String
  httpMethod : String
  xApiKey : Option String
  bodyUrl : Option String
  urlValid : Bool
  infoOutcome : Except String String
  downloadOutcome : Except String Unit
  processOutcome : Except String Unit
  processPartialFile : Bool
  probeOutcome : Except String ℚ
  splitFails : Option String
  chunkWritten : ℕ → Bool
  partTranscript : ℕ → Except String String
  unlinkFails : String → Bool

/-- Result of the `try` block body, before any cleanup. -/
inductive Flow where
  | earlyResponse (r : HResponse)
  | failed (e : String)
  | succeeded (title fullTranscript : String)
deriving DecidableEq, Repr

/-- The transcription loop over `audioParts` (lines 174-178): sequential,
aborting on the first failed chunk. -/
def transcribeLoop (tr : ℕ → Except String String) : ℕ → ℕ → String → Except String String
  | _, 0, acc => .ok acc
  | i, rem + 1, acc =>
    match tr i with
    | .error e => .error e
    | .ok t => transcribeLoop tr (i + 1) rem (acc ++ t ++ " ")

/-- The `try` block of the part_003 handler (lines 122-178), threading the
set of existing temporary files and returning the assigned `audioParts`
list. -/
def run (sc : Scenario) (fs : List String) : Flow × List String × List String :=
  if sc.httpMethod = "OPTIONS" then (.earlyResponse ⟨204, none⟩, fs, [])
  else if sc.httpMethod ≠ "POST" then
    (.earlyResponse ⟨405, some { error := some "Method not allowed" }⟩, fs, [])
  else
    match validateApiKey sc.envApiKey sc.xApiKey with
    | .error e => (.failed e, fs, [])
    | .ok _ =>
      if sc.bodyUrl = none ∨ sc.bodyUrl = some "" ∨ sc.urlValid = false then
        (.earlyResponse
          ⟨400, some { success := some false, error := some "Invalid YouTube URL" }⟩, fs, [])
      else
        match sc.infoOutcome with
        | .error e => (.failed e, fs, [])
        | .ok title =>
          match sc.downloadOutcome with
          | .error e => (.failed e, fs, [])
          | .ok _ =>
            match sc.processOutcome with
            | .error e =>
              (.failed e, if sc.processPartialFile then mainAudioPath :: fs else fs, [])
            | .ok _ =>
              let fs1 := mainAudioPath :: fs
              match sc.probeOutcome with
              | .error e => (.failed e, fs1, [])
              | .ok duration =>
                let numParts := (⌈duration / 1800⌉).toNat
                if numParts = 1 then
                  match transcribeLoop sc.partTranscript 0 1 "" with
                  | .error e => (.failed e, fs1, [mainAudioPath])
                  | .ok tr => (.succeeded title tr, fs1, [mainAudioPath])
                else
                  match sc.splitFails with
                  | some e =>
                    -- one chunk job rejected: the chunk files already written
                    -- are on disk, but `audioParts` in the handler was never
                    -- assigned (it is still []), so the catch cleanup cannot
                    -- see them
                    (.failed e,
                     ((List.range numParts).filter sc.chunkWritten).map partPath ++ fs1,
                     [])
                  | none =>
                    let parts := (List.range numParts).map partPath
                    let fs2 := parts ++ fs1
                    match transcribeLoop sc.partTranscript 0 numParts "" with
                    | .error e => (.failed e, fs2, parts)
                    | .ok tr => (.succeeded title tr, fs2, parts)

/-- Attempt `fs.unlink` on each path: a path is removed unless its unlink
fails.  (Under `Promise.all` every unlink runs even if one rejects.) -/
def cleanupAttempt (uf : String → Bool) (paths : List String) (fs : List String) :
    List String :=
  fs.filter (fun q => !(paths.contains q) || uf q)

/-- The catch block response (lines 208-215). -/
def catchResponse (e : String) : HResponse :=
  ⟨if includesSub "API key" e then 401 else 500,
   some { success := some false,
          error := some (if e = "" then "Failed to transcribe video" else e) }⟩

/-- The part_003 handler: run the `try` body, then cleanup.  On success,
`Promise.all([unlink(main), ...parts])` (lines 181-184); if any unlink
rejects, control moves to the catch block, whose own guarded cleanup
(lines 199-206) swallows errors.  On failure, the guarded cleanup runs
and the response is built from the original error only. -/
def handler (sc : Scenario) (fs0 : List String) : HResponse × List String :=
  match run sc fs0 with
  | (.earlyResponse r, fs, _) => (r, fs)
  | (.failed e, fs, parts) =>
    let attempted := (if fs.contains mainAudioPath then [mainAudioPath] else []) ++
      parts.filter (fun p => p != mainAudioPath && fs.contains p)
    (catchResponse e, cleanupAttempt sc.unlinkFails attempted fs)
  | (.succeeded title tr, fs, parts) =>
    let attempted := mainAudioPath :: parts.filter (fun p => p != mainAudioPath)
    let fs1 := cleanupAttempt sc.unlinkFails attempted fs
    if attempted.any sc.unlinkFails then
      let attempted2 := (if fs1.contains mainAudioPath then [mainAudioPath] else []) ++
        parts.filter (fun p => p != mainAudioPath && fs1.contains p)
      (catchResponse "unlink failed", cleanupAttempt sc.unlinkFails attempted2 fs1)
    else
      (⟨200, some { success := some true,
                    title := some title,
                    transcript := some (jsTrim tr) }⟩, fs1)

end P3

/-! ## functions/transcribe.js: audio-first handler whose catch block does
NOT delete the temporary audio file. -/

namespace FT

/-- Everything that can vary between runs of the functions/transcribe.js
handler. -/
structure Scenario where
  envApiKey : Option String
  httpMethod : String
  xApiKey : Option String
  bodyUrl : Option String
  urlValid : Bool
  videoId : String
  downloadOutcome : Except String Unit
  transcribeOutcome : Except String String
deriving Repr

/-- `path.join(os.tmpdir(), videoId + '.mp3')`. -/
def audioPath (videoId : String) : String := "/tmp/" ++ videoId ++ ".mp3"

/-- The catch block (lines 92-101 of the file): always 500, no cleanup. -/
def catchResponse (e : String) : HResponse :=
  ⟨500, some { success := some false,
               error := some (if e = "" then "Failed to transcribe video" else e) }⟩

/-- The functions/transcribe.js handler, threading the set of existing
temporary files.  `fs.createWriteStream(audioPath)` creates the file
as soon as the download starts, and the catch block performs no
cleanup, so failures after that point leave the file behind. -/
def handler (sc : Scenario) (fs0 : List String) : HResponse × List String :=
  if sc.httpMethod ≠ "POST" then
    (⟨405, some { error := some "Method not allowed" }⟩, fs0)
  else
    match validateApiKey sc.envApiKey sc.xApiKey with
    | .error e => (catchResponse e, fs0)
    | .ok _ =>
      if sc.bodyUrl = none ∨ sc.bodyUrl = some "" then
        (⟨400, some { success := some false, error := some "YouTube URL is required" }⟩, fs0)
      else if !sc.urlValid then
        (⟨400, some { success := some false, error := some "Invalid YouTube URL" }⟩, fs0)
      else
        let path := audioPath sc.videoId
        let fs1 := path :: fs0
        match sc.downloadOutcome with
        | .error e => (catchResponse e, fs1)
        | .ok _ =>
          match sc.transcribeOutcome with
          | .error e => (catchResponse e, fs1)
          | .ok t =>
            (⟨200, some { success := some true, transcript := some t }⟩, fs1.erase path)

end FT

/-! # Theorems -/

/-! ## Generic list/string lemmas -/

theorem takeWhile_eq_self {p : Char → Bool} {l : List Char}
    (h : ∀ c ∈ l, p c = true) : l.takeWhile p = l := by
  induction l with
  | nil => rfl
  | cons c cs ih =>
    simp [List.takeWhile_cons, h c (by simp),
      ih (fun d hd => h d (by simp [hd]))]

theorem string_data_append (s t : String) : (s ++ t).data = s.data ++ t.data := rfl

theorem string_mk_data (s : String) : String.mk s.data = s := rfl

theorem string_data_ne_nil {s : String} (h : s ≠ "") : s.data ≠ [] := by
  intro hd
  exact h (by cases s; simp_all)

theorem dropLit_self (p l : List Char) : dropLit p (p ++ l) = some l := by
  induction p with
  | nil => rfl
  | cons c cs ih => simp [dropLit, ih]

theorem dropLit_length {p l r : List Char} (h : dropLit p l = some r) :
    r.length + p.length = l.length := by
  induction p generalizing l with
  | nil => simp [dropLit] at h; simp [h]
  | cons c cs ih =>
    cases l with
    | nil => simp [dropLit] at h
    | cons d ds =>
      simp only [dropLit] at h
      split at h
      · have := ih h
        simp [List.length_cons]
        omega
      · exact absurd h (by simp)

theorem dropLit_eq_append {p l r : List Char} (h : dropLit p l = some r) :
    l = p ++ r := by
  induction p generalizing l with
  | nil => simp [dropLit] at h; simp [h]
  | cons c cs ih =>
    cases l with
    | nil => simp [dropLit] at h
    | cons d ds =>
      simp only [dropLit] at h
      split at h
      · rename_i hc; simp [← hc, ih h]
      · exact absurd h (by simp)

/-! ## Extractor lemmas: matches at the start of a shape -/

theorem extractIdAux_of_tryPatterns {pats : List (List Char)} {l r : List Char}
    (h : tryPatterns pats l = some r) (hl : l ≠ []) :
    extractIdAux pats l = some r := by
  cases l with
  | nil => exact absurd rfl hl
  | cons c cs => simp [extractIdAux, h]

section ShapeLemmas

variable {id : List Char}

theorem takeWhile_nonstop (hstop : ∀ c ∈ id, stopChar c = false) :
    id.takeWhile (fun c => !stopChar c) = id :=
  takeWhile_eq_self (fun c hc => by simp [hstop c hc])

theorem isEmpty_false_of_ne_nil (h : id ≠ []) : id.isEmpty = false := by
  cases id with
  | nil => exact absurd rfl h
  | cons c cs => rfl

theorem tryPatterns_cons_skip {p : List Char} {ps : List (List Char)} {l : List Char}
    (hd : dropLit p l = none) : tryPatterns (p :: ps) l = tryPatterns ps l := by
  simp [tryPatterns, hd]

theorem tryPatterns_cons_match {p : List Char} {ps : List (List Char)} {l r : List Char}
    (hd : dropLit p l = some r) (ht : r.takeWhile (fun c => !stopChar c) = r)
    (hr : r ≠ []) : tryPatterns (p :: ps) l = some r := by
  simp [tryPatterns, hd, ht, isEmpty_false_of_ne_nil hr]

theorem tryPatterns4_watch (hne : id ≠ []) (hstop : ∀ c ∈ id, stopChar c = false) :
    tryPatterns patterns4 ("youtube.com/watch?v=".data ++ id) = some id :=
  tryPatterns_cons_match (dropLit_self _ _) (takeWhile_nonstop hstop) hne

theorem tryPatterns4_short (hne : id ≠ []) (hstop : ∀ c ∈ id, stopChar c = false) :
    tryPatterns patterns4 ("youtu.be/".data ++ id) = some id := by
  have h1 : dropLit "youtube.com/watch?v=".data ("youtu.be/".data ++ id) = none := rfl
  calc tryPatterns patterns4 ("youtu.be/".data ++ id)
      = tryPatterns ["youtu.be/".data, "youtube.com/embed/".data,
          "youtube.com/v/".data] ("youtu.be/".data ++ id) := tryPatterns_cons_skip h1
    _ = some id := tryPatterns_cons_match (dropLit_self _ _) (takeWhile_nonstop hstop) hne

theorem tryPatterns4_embed (hne : id ≠ []) (hstop : ∀ c ∈ id, stopChar c = false) :
    tryPatterns patterns4 ("youtube.com/embed/".data ++ id) = some id := by
  have h1 : dropLit "youtube.com/watch?v=".data ("youtube.com/embed/".data ++ id) = none := rfl
  have h2 : dropLit "youtu.be/".data ("youtube.com/embed/".data ++ id) = none := rfl
  calc tryPatterns patterns4 ("youtube.com/embed/".data ++ id)
      = tryPatterns ["youtu.be/".data, "youtube.com/embed/".data,
          "youtube.com/v/".data] ("youtube.com/embed/".data ++ id) := tryPatterns_cons_skip h1
    _ = tryPatterns ["youtube.com/embed/".data,
          "youtube.com/v/".data] ("youtube.com/embed/".data ++ id) := tryPatterns_cons_skip h2
    _ = some id := tryPatterns_cons_match (dropLit_self _ _) (takeWhile_nonstop hstop) hne

theorem tryPatterns4_v (hne : id ≠ []) (hstop : ∀ c ∈ id, stopChar c = false) :
    tryPatterns patterns4 ("youtube.com/v/".data ++ id) = some id := by
  have h1 : dropLit "youtube.com/watch?v=".data ("youtube.com/v/".data ++ id) = none := rfl
  have h2 : dropLit "youtu.be/".data ("youtube.com/v/".data ++ id) = none := rfl
  have h3 : dropLit "youtube.com/embed/".data ("youtube.com/v/".data ++ id) = none := rfl
  calc tryPatterns patterns4 ("youtube.com/v/".data ++ id)
      = tryPatterns ["youtu.be/".data, "youtube.com/embed/".data,
          "youtube.com/v/".data] ("youtube.com/v/".data ++ id) := tryPatterns_cons_skip h1
    _ = tryPatterns ["youtube.com/embed/".data,
          "youtube.com/v/".data] ("youtube.com/v/".data ++ id) := tryPatterns_cons_skip h2
    _ = tryPatterns ["youtube.com/v/".data] ("youtube.com/v/".data ++ id) :=
          tryPatterns_cons_skip h3
    _ = some id := tryPatterns_cons_match (dropLit_self _ _) (takeWhile_nonstop hstop) hne

theorem tryPatterns3_watch (hne : id ≠ []) (hstop : ∀ c ∈ id, stopChar c = false) :
    tryPatterns patterns3 ("youtube.com/watch?v=".data ++ id) = some id :=
  tryPatterns_cons_match (dropLit_self _ _) (takeWhile_nonstop hstop) hne

theorem tryPatterns3_short (hne : id ≠ []) (hstop : ∀ c ∈ id, stopChar c = false) :
    tryPatterns patterns3 ("youtu.be/".data ++ id) = some id := by
  have h1 : dropLit "youtube.com/watch?v=".data ("youtu.be/".data ++ id) = none := rfl
  calc tryPatterns patterns3 ("youtu.be/".data ++ id)
      = tryPatterns ["youtu.be/".data,
          "youtube.com/embed/".data] ("youtu.be/".data ++ id) := tryPatterns_cons_skip h1
    _ = some id := tryPatterns_cons_match (dropLit_self _ _) (takeWhile_nonstop hstop) hne

theorem tryPatterns3_embed (hne : id ≠ []) (hstop : ∀ c ∈ id, stopChar c = false) :
    tryPatterns patterns3 ("youtube.com/embed/".data ++ id) = some id := by
  have h1 : dropLit "youtube.com/watch?v=".data ("youtube.com/embed/".data ++ id) = none := rfl
  have h2 : dropLit "youtu.be/".data ("youtube.com/embed/".data ++ id) = none := rfl
  calc tryPatterns patterns3 ("youtube.com/embed/".data ++ id)
      = tryPatterns ["youtu.be/".data,
          "youtube.com/embed/".data] ("youtube.com/embed/".data ++ id) := tryPatterns_cons_skip h1
    _ = tryPatterns ["youtube.com/embed/".data] ("youtube.com/embed/".data ++ id) :=
          tryPatterns_cons_skip h2
    _ = some id := tryPatterns_cons_match (dropLit_self _ _) (takeWhile_nonstop hstop) hne

theorem extractIdAux_shape {pats : List (List Char)} {lit : String}
    (hlit : lit ≠ "")
    (h : tryPatterns pats (lit.data ++ id) = some id) :
    extractIdAux pats (lit.data ++ id) = some id := by
  refine extractIdAux_of_tryPatterns h ?_
  intro hcontra
  exact string_data_ne_nil hlit (by
    cases hs : lit.data with
    | nil => rfl
    | cons c cs => rw [hs] at hcontra; simp at hcontra)

/-- Lift a shape lemma to the `String`-level extractor. -/
theorem extractId_string_shape {pats : List (List Char)} {lit id : String}
    (hlit : lit ≠ "")
    (h : tryPatterns pats (lit.data ++ id.data) = some id.data) :
    (extractIdAux pats (lit ++ id).data).map String.mk = some id := by
  rw [string_data_append, extractIdAux_shape hlit h]
  rfl

end ShapeLemmas

/-! ## Extractor lemmas: no shape occurs anywhere -/

section NoMatchLemmas

theorem isPrefixOf_append_self (p r : List Char) : p.isPrefixOf (p ++ r) = true := by
  induction p with
  | nil => simp [List.isPrefixOf]
  | cons c cs ih => simp [List.isPrefixOf, ih]

theorem containsSubL_of_dropLit {p l r : List Char} (h : dropLit p l = some r) :
    containsSubL p l = true := by
  have hl := dropLit_eq_append h
  cases l with
  | nil =>
    have hp : p = [] := by
      cases p with
      | nil => rfl
      | cons c cs => simp at hl
    simp [containsSubL, hp]
  | cons c cs =>
    rw [show containsSubL p (c :: cs)
        = (p.isPrefixOf (c :: cs) || containsSubL p cs) from rfl]
    rw [hl, isPrefixOf_append_self]
    rfl

theorem tryPatterns_some_contains {pats : List (List Char)} {l r : List Char}
    (h : tryPatterns pats l = some r) :
    ∃ p ∈ pats, containsSubL p l = true := by
  induction pats with
  | nil => simp [tryPatterns] at h
  | cons p ps ih =>
    simp only [tryPatterns] at h
    cases hd : dropLit p l with
    | some rest =>
      exact ⟨p, by simp, containsSubL_of_dropLit hd⟩
    | none =>
      rw [hd] at h
      obtain ⟨q, hq, hcq⟩ := ih h
      exact ⟨q, by simp [hq], hcq⟩

theorem containsSubL_tail {p c : _} {cs : List Char}
    (h : containsSubL p (c :: cs) = false) : containsSubL p cs = false := by
  simp only [containsSubL, Bool.or_eq_false_iff] at h
  exact h.2

theorem extractIdAux_none {pats : List (List Char)} {l : List Char}
    (h : ∀ p ∈ pats, containsSubL p l = false) :
    extractIdAux pats l = none := by
  induction l with
  | nil => rfl
  | cons c cs ih =>
    have hnone : tryPatterns pats (c :: cs) = none := by
      cases ht : tryPatterns pats (c :: cs) with
      | none => rfl
      | some r =>
        obtain ⟨p, hp, hcp⟩ := tryPatterns_some_contains ht
        exact absurd hcp (by simp [h p hp])
    simp [extractIdAux, hnone]
    exact ih (fun p hp => containsSubL_tail (h p hp))

end NoMatchLemmas

/-! ## Extractor lemmas: matches after an arbitrary y-free prefix -/

section UnanchoredLemmas

theorem tryPatterns_none_of_head {pats : List (List Char)} {c : Char} {cs : List Char}
    (hh : ∀ p ∈ pats, p.head? = some 'y') (hc : c ≠ 'y') :
    tryPatterns pats (c :: cs) = none := by
  induction pats with
  | nil => rfl
  | cons p ps ih =>
    obtain ⟨p', hp'⟩ : ∃ p', p = 'y' :: p' := by
      have := hh p (by simp)
      cases p with
      | nil => simp at this
      | cons a as => simp at this; exact ⟨as, by simp [this]⟩
    have hd : dropLit p (c :: cs) = none := by
      rw [hp']
      simp only [dropLit]
      rw [if_neg (fun h => hc h.symm)]
    simp only [tryPatterns, hd]
    exact ih (fun q hq => hh q (by simp [hq]))

theorem extractIdAux_skip {pats : List (List Char)} {q l : List Char}
    (hq : ∀ c ∈ q, c ≠ 'y') (hh : ∀ p ∈ pats, p.head? = some 'y') :
    extractIdAux pats (q ++ l) = extractIdAux pats l := by
  induction q with
  | nil => rfl
  | cons c cs ih =>
    have hnone : tryPatterns pats (c :: (cs ++ l)) = none :=
      tryPatterns_none_of_head hh (hq c (by simp))
    simp [extractIdAux, hnone]
    exact ih (fun d hd => hq d (by simp [hd]))

theorem patterns4_heads : ∀ p ∈ patterns4, p.head? = some 'y' := by decide

theorem patterns3_heads : ∀ p ∈ patterns3, p.head? = some 'y' := by decide

/-- Lift the unanchored-match situation to the `String` level. -/
theorem extractId_string_unanchored {pats : List (List Char)} {p lit id : String}
    (hp : ∀ c ∈ p.data, c ≠ 'y') (hh : ∀ q ∈ pats, q.head? = some 'y')
    (hlit : lit ≠ "")
    (h : tryPatterns pats (lit.data ++ id.data) = some id.data) :
    (extractIdAux pats (p ++ lit ++ id).data).map String.mk = some id := by
  have hdata : (p ++ lit ++ id).data = p.data ++ (lit.data ++ id.data) := by
    rw [string_data_append, string_data_append, List.append_assoc]
  rw [hdata, extractIdAux_skip hp hh, extractIdAux_shape hlit h]
  rfl

end UnanchoredLemmas

/-! ## Claim C3 -/

/-- C3 (amended): for every identifier token ID (non-empty, containing
none of `&`, `?`, `#`, newline), the four-alternative extractors
(netlify/functions/transcribe.js, both copies, and unnamed part_002)
return ID on all four URL shapes, while the three-alternative extractors
(unnamed part_000 and part_001) return ID on the `watch?v=`, `youtu.be/`
and `embed/` shapes — their regex has no `youtube.com/v/` alternative, so
the original claim fails there (see the counterexample). -/
theorem c3_extractor_shape_agreement (id : String) (hne : id ≠ "")
    (hstop : ∀ c ∈ id.data, stopChar c = false) :
    (Netlify.getVideoId ("youtube.com/watch?v=" ++ id) = some id
      ∧ Netlify.getVideoId ("youtu.be/" ++ id) = some id
      ∧ Netlify.getVideoId ("youtube.com/embed/" ++ id) = some id
      ∧ Netlify.getVideoId ("youtube.com/v/" ++ id) = some id)
    ∧ (Part002.getVideoId ("youtube.com/watch?v=" ++ id) = some id
      ∧ Part002.getVideoId ("youtu.be/" ++ id) = some id
      ∧ Part002.getVideoId ("youtube.com/embed/" ++ id) = some id
      ∧ Part002.getVideoId ("youtube.com/v/" ++ id) = some id)
    ∧ (Part000.getVideoId ("youtube.com/watch?v=" ++ id) = some id
      ∧ Part000.getVideoId ("youtu.be/" ++ id) = some id
      ∧ Part000.getVideoId ("youtube.com/embed/" ++ id) = some id)
    ∧ (Part001.getVideoId ("youtube.com/watch?v=" ++ id) = some id
      ∧ Part001.getVideoId ("youtu.be/" ++ id) = some id
      ∧ Part001.getVideoId ("youtube.com/embed/" ++ id) = some id) := by
  have hne' : id.data ≠ [] := string_data_ne_nil hne
  exact ⟨⟨extractId_string_shape (by decide) (tryPatterns4_watch hne' hstop),
          extractId_string_shape (by decide) (tryPatterns4_short hne' hstop),
          extractId_string_shape (by decide) (tryPatterns4_embed hne' hstop),
          extractId_string_shape (by decide) (tryPatterns4_v hne' hstop)⟩,
         ⟨extractId_string_shape (by decide) (tryPatterns4_watch hne' hstop),
          extractId_string_shape (by decide) (tryPatterns4_short hne' hstop),
          extractId_string_shape (by decide) (tryPatterns4_embed hne' hstop),
          extractId_string_shape (by decide) (tryPatterns4_v hne' hstop)⟩,
         ⟨extractId_string_shape (by decide) (tryPatterns3_watch hne' hstop),
          extractId_string_shape (by decide) (tryPatterns3_short hne' hstop),
          extractId_string_shape (by decide) (tryPatterns3_embed hne' hstop)⟩,
         ⟨extractId_string_shape (by decide) (tryPatterns3_watch hne' hstop),
          extractId_string_shape (by decide) (tryPatterns3_short hne' hstop),
          extractId_string_shape (by decide) (tryPatterns3_embed hne' hstop)⟩⟩

/-- C3 counterexample: `abc123` is a valid identifier token, yet
part_000's extractor (one of the variants that defines the extractor)
does not return it from the `youtube.com/v/` shape — it finds no
identifier at all. -/
theorem c3_counterexample :
    ("abc123" : String) ≠ ""
    ∧ (∀ c ∈ ("abc123" : String).data, stopChar c = false)
    ∧ Part000.getVideoId "youtube.com/v/abc123" = none
    ∧ Part000.getVideoId "youtube.com/v/abc123" ≠ some "abc123" := by decide

/-- Witness for C3 at the concrete token `abc123`. -/
theorem c3_witness :
    Netlify.getVideoId "youtube.com/v/abc123" = some "abc123"
    ∧ Part000.getVideoId "youtu.be/abc123" = some "abc123" :=
  ⟨(c3_extractor_shape_agreement "abc123" (by decide) (by decide)).1.2.2.2,
   (c3_extractor_shape_agreement "abc123" (by decide) (by decide)).2.2.1.2.1⟩

/-! ## Claim C10 -/

/-- C10: the extractor's patterns are anchored neither to the start of the
input nor to a validated host: whenever a recognized shape substring
occurs after an arbitrary prefix (no earlier occurrence, guaranteed here
by the prefix containing no 'y'), followed by an identifier token, the
extractor returns that token instead of signalling "no identifier". -/
theorem c10_extractor_unanchored (p id : String)
    (hp : ∀ c ∈ p.data, c ≠ 'y') (hne : id ≠ "")
    (hstop : ∀ c ∈ id.data, stopChar c = false) :
    (Netlify.getVideoId (p ++ "youtube.com/watch?v=" ++ id) = some id
      ∧ Netlify.getVideoId (p ++ "youtu.be/" ++ id) = some id
      ∧ Netlify.getVideoId (p ++ "youtube.com/embed/" ++ id) = some id
      ∧ Netlify.getVideoId (p ++ "youtube.com/v/" ++ id) = some id)
    ∧ (Part000.getVideoId (p ++ "youtube.com/watch?v=" ++ id) = some id
      ∧ Part000.getVideoId (p ++ "youtu.be/" ++ id) = some id
      ∧ Part000.getVideoId (p ++ "youtube.com/embed/" ++ id) = some id) := by
  have hne' : id.data ≠ [] := string_data_ne_nil hne
  exact ⟨⟨extractId_string_unanchored hp patterns4_heads (by decide)
            (tryPatterns4_watch hne' hstop),
          extractId_string_unanchored hp patterns4_heads (by decide)
            (tryPatterns4_short hne' hstop),
          extractId_string_unanchored hp patterns4_heads (by decide)
            (tryPatterns4_embed hne' hstop),
          extractId_string_unanchored hp patterns4_heads (by decide)
            (tryPatterns4_v hne' hstop)⟩,
         ⟨extractId_string_unanchored hp patterns3_heads (by decide)
            (tryPatterns3_watch hne' hstop),
          extractId_string_unanchored hp patterns3_heads (by decide)
            (tryPatterns3_short hne' hstop),
          extractId_string_unanchored hp patterns3_heads (by decide)
            (tryPatterns3_embed hne' hstop)⟩⟩

/-- Witness for C10 at the example input from the claim. -/
theorem c10_witness :
    Netlify.getVideoId "https://evil.example/a?u=youtu.be/abc123" = some "abc123" :=
  (c10_extractor_unanchored "https://evil.example/a?u=" "abc123"
    (by decide) (by decide) (by decide)).1.2.1

/-! ## Claim C2 -/

/-- C2 counterexample: the list `[fr, en-GB]` contains a track whose
language code has the prefix `en-`, yet the selector picks the `fr`
track, because the code compares against the exact strings `en` and
`en-US` rather than the prefix `en-`. -/
theorem c2_counterexample :
    Netlify.selectTrack [⟨"fr", some "u1"⟩, ⟨"en-GB", some "u2"⟩]
      = some ⟨"fr", some "u1"⟩
    ∧ claimEnTrack ⟨"en-GB", some "u2"⟩ = true
    ∧ claimEnTrack ⟨"fr", some "u1"⟩ = false := by decide

/-- C2 (amended): for every non-empty caption-track list, the selector
returns a track; it is one whose `languageCode` is exactly `en` or
exactly `en-US` whenever such a track exists, and otherwise it is the
first track of the list. -/
theorem c2_track_selection (tracks : List CaptionTrack) (hne : tracks ≠ []) :
    ∃ sel, Netlify.selectTrack tracks = some sel
      ∧ ((∃ t ∈ tracks, t.languageCode = "en" ∨ t.languageCode = "en-US") →
          sel.languageCode = "en" ∨ sel.languageCode = "en-US")
      ∧ ((∀ t ∈ tracks, t.languageCode ≠ "en" ∧ t.languageCode ≠ "en-US") →
          tracks.head? = some sel) := by
  cases hf : tracks.find? (fun track =>
      track.languageCode == "en" || track.languageCode == "en-US") with
  | some t =>
    refine ⟨t, by simp [Netlify.selectTrack, hf], fun _ => ?_, fun hall => ?_⟩
    · have := List.find?_some hf
      simpa using this
    · have hp := List.find?_some hf
      have hm := List.mem_of_find?_eq_some hf
      have := hall t hm
      simp only [Bool.or_eq_true, beq_iff_eq] at hp
      rcases hp with h | h
      · exact absurd h this.1
      · exact absurd h this.2
  | none =>
    obtain ⟨h, rest, rfl⟩ : ∃ h rest, tracks = h :: rest := by
      cases tracks with
      | nil => exact absurd rfl hne
      | cons h rest => exact ⟨h, rest, rfl⟩
    refine ⟨h, by simp [Netlify.selectTrack, hf], fun hex => ?_, fun _ => rfl⟩
    obtain ⟨t, hm, hcode⟩ := hex
    have := List.find?_eq_none.mp hf t hm
    simp only [Bool.or_eq_true, beq_iff_eq] at this
    exact absurd hcode (by tauto)

/-- Witness for C2 at a concrete two-track list. -/
theorem c2_witness :
    ∃ sel, Netlify.selectTrack [⟨"fr", none⟩, ⟨"en", some "u"⟩] = some sel
      ∧ ((∃ t ∈ ([⟨"fr", none⟩, ⟨"en", some "u"⟩] : List CaptionTrack),
            t.languageCode = "en" ∨ t.languageCode = "en-US") →
          sel.languageCode = "en" ∨ sel.languageCode = "en-US")
      ∧ ((∀ t ∈ ([⟨"fr", none⟩, ⟨"en", some "u"⟩] : List CaptionTrack),
            t.languageCode ≠ "en" ∧ t.languageCode ≠ "en-US") →
          ([⟨"fr", none⟩, ⟨"en", some "u"⟩] : List CaptionTrack).head? = some sel) :=
  c2_track_selection [⟨"fr", none⟩, ⟨"en", some "u"⟩] (by decide)

/-! ## Claim C5 -/

/-- C5: whenever the decoded caption transcript is shorter than 10
characters, `getYouTubeTranscript` throws "Transcript too short or empty"
instead of returning it; a decoded transcript of length at least 10 is
returned. -/
theorem c5_length_guard (xml t : String)
    (h : Netlify.captionTranscriptOf xml = some t) :
    (t.length < 10 → Netlify.parseCaptionXml xml = .error "Transcript too short or empty")
    ∧ (10 ≤ t.length → Netlify.parseCaptionXml xml = .ok t) := by
  constructor
  · intro hlt
    simp [Netlify.parseCaptionXml, h, hlt]
  · intro hge
    have h1 : ¬(t = "" ∨ t.length < 10) := by
      rintro (rfl | hlt)
      · simp at hge
      · omega
    simp only [Netlify.parseCaptionXml, h]
    rw [if_neg h1]

/-- Witness for C5: a payload decoding to 17 characters is returned, and
one decoding to 5 characters is rejected. -/
theorem c5_witness :
    Netlify.parseCaptionXml "<text>hello world again</text>" = .ok "hello world again"
    ∧ Netlify.parseCaptionXml "<text>short</text>"
        = .error "Transcript too short or empty" :=
  ⟨(c5_length_guard "<text>hello world again</text>" "hello world again"
      (by decide)).2 (by decide),
   (c5_length_guard "<text>short</text>" "short" (by decide)).1 (by decide)⟩

/-! ## Claim C8 -/

/-- Every branch of the caption handler's catch block answers with
`success: false`. -/
theorem mapCatchError_success_false (e : String) :
    bodySuccessFalse (Netlify.mapCatchError e) := by
  unfold Netlify.mapCatchError
  split_ifs <;> exact ⟨_, rfl, rfl⟩

/-- C8: with a valid credential and a parseable URL, a failed transcript
lookup always fails the whole request with `success: false` (whatever the
title fetch did), while a failed title fetch never fails the request —
the response is still a 200 success whose title falls back to
"Unknown Title". -/
theorem c8_title_transcript_independence (k url vid : String) (hk : k ≠ "")
    (hurl : Netlify.getVideoId url = some vid) :
    (∀ e titleFetchOutcome, bodySuccessFalse
        (Netlify.handler (some k) ⟨"POST", some k, some url⟩ (.error e) titleFetchOutcome))
    ∧ (∀ t e, Netlify.handler (some k) ⟨"POST", some k, some url⟩ (.ok t) (.error e)
        = ⟨200, some { success := some true, transcript := some t, videoId := some vid,
                       title := some "Unknown Title", method := some "youtube-captions" }⟩) := by
  have hv : validateApiKey (some k) (some k) = .ok () := by
    simp [validateApiKey, hk]
  have hune : url ≠ "" := by
    rintro rfl
    rw [show Netlify.getVideoId "" = none from rfl] at hurl
    exact Option.noConfusion hurl
  constructor
  · intro e titleFetchOutcome
    simpa [Netlify.handler, hv, hune, hurl] using mapCatchError_success_false e
  · intro t e
    simp [Netlify.handler, hv, hune, hurl, Netlify.getVideoTitle]

/-- Witness for C8 at concrete inputs. -/
theorem c8_witness :
    bodySuccessFalse (Netlify.handler (some "sec")
        ⟨"POST", some "sec", some "youtu.be/abc123"⟩ (.error "boom") (.ok "<html></html>"))
    ∧ Netlify.handler (some "sec")
        ⟨"POST", some "sec", some "youtu.be/abc123"⟩ (.ok "a transcript") (.error "down")
      = ⟨200, some { success := some true, transcript := some "a transcript",
                     videoId := some "abc123", title := some "Unknown Title",
                     method := some "youtube-captions" }⟩ :=
  ⟨(c8_title_transcript_independence "sec" "youtu.be/abc123" "abc123"
      (by decide) (by decide)).1 "boom" (.ok "<html></html>"),
   (c8_title_transcript_independence "sec" "youtu.be/abc123" "abc123"
      (by decide) (by decide)).2 "a transcript" "down"⟩

/-! ## Claim C9 -/

/-- C9: for every input string in which no recognized URL shape occurs,
the extractor returns `none` (it is a total function — the "no
identifier" signal, not an exception), and the caption handler then
responds 400 with `success: false`, for every credential and every
oracle outcome. -/
theorem c9_no_shape_400 (k url : String) (hk : k ≠ "")
    (hurl : ∀ p ∈ patterns4, containsSubL p url.data = false) :
    Netlify.getVideoId url = none
    ∧ ∀ transcriptOutcome titleFetchOutcome,
        (Netlify.handler (some k) ⟨"POST", some k, some url⟩
            transcriptOutcome titleFetchOutcome).statusCode = 400
        ∧ bodySuccessFalse (Netlify.handler (some k) ⟨"POST", some k, some url⟩
            transcriptOutcome titleFetchOutcome) := by
  have hnone : Netlify.getVideoId url = none := by
    simp [Netlify.getVideoId, extractIdAux_none hurl]
  have hv : validateApiKey (some k) (some k) = .ok () := by
    simp [validateApiKey, hk]
  refine ⟨hnone, fun transcriptOutcome titleFetchOutcome => ?_⟩
  by_cases hu : url = ""
  · subst hu
    exact ⟨by simp [Netlify.handler, hv],
      ⟨{ success := some false, error := some "YouTube URL is required" },
        by simp [Netlify.handler, hv], rfl⟩⟩
  · constructor
    · simp [Netlify.handler, hv, hu, hnone]
    · exact ⟨{ success := some false, error := some "Invalid YouTube URL" },
        by simp [Netlify.handler, hv, hu, hnone], rfl⟩

/-! ## Claim C4 -/

theorem includes_api_key_required : includesSub "API key" "API key is required" = true := by
  decide

theorem includes_api_key_invalid : includesSub "API key" "Invalid API key" = true := by
  decide

/-- C4: in both credential-checking variants (the part_004 express
middleware mounted before the transcription route, and the
functions/transcribe/index.js handler), an absent `X-API-Key` yields 401
with `success: false` and a key differing from the configured secret
yields 401 or 403 with `success: false`; in every such case the trace of
network calls is empty, i.e. the rejection happens before any network
call is attempted.  (`/health` is exempt from the middleware by design,
and the Netlify handler checks only POST requests.) -/
theorem c4_auth_before_network :
    (∀ (envApiKey : Option String) (req : Auth.Req) (tO : Except String String),
      req.path ≠ "/health" →
      ((req.xApiKey = none →
          (Auth.expressApp envApiKey tO req).1.statusCode = 401
          ∧ bodySuccessFalse (Auth.expressApp envApiKey tO req).1
          ∧ (Auth.expressApp envApiKey tO req).2 = [])
        ∧ (∀ k, req.xApiKey = some k → some k ≠ envApiKey →
            ((Auth.expressApp envApiKey tO req).1.statusCode = 401
              ∨ (Auth.expressApp envApiKey tO req).1.statusCode = 403)
            ∧ bodySuccessFalse (Auth.expressApp envApiKey tO req).1
            ∧ (Auth.expressApp envApiKey tO req).2 = [])))
    ∧ (∀ (envApiKey : Option String) (event : Event) (px : FI.Pipeline),
        event.httpMethod = "POST" →
        ((event.xApiKey = none →
            (FI.handler envApiKey event px).1.statusCode = 401
            ∧ bodySuccessFalse (FI.handler envApiKey event px).1
            ∧ (FI.handler envApiKey event px).2 = [])
          ∧ (∀ k, event.xApiKey = some k → some k ≠ envApiKey →
              (FI.handler envApiKey event px).1.statusCode = 401
              ∧ bodySuccessFalse (FI.handler envApiKey event px).1
              ∧ (FI.handler envApiKey event px).2 = []))) := by
  constructor
  · intro envApiKey req tO hpath
    constructor
    · intro hnone
      refine ⟨?_, ⟨{ success := some false, error := some "API key is required" }, ?_, rfl⟩, ?_⟩
        <;> simp [Auth.expressApp, Auth.validateApiKey, hpath, hnone]
    · intro k hk hne
      by_cases hk0 : k = ""
      · subst hk0
        refine ⟨Or.inl ?_,
          ⟨{ success := some false, error := some "API key is required" }, ?_, rfl⟩, ?_⟩
          <;> simp [Auth.expressApp, Auth.validateApiKey, hpath, hk]
      · have hx : ¬(req.xApiKey = none ∨ req.xApiKey = some "") := by
          rintro (h | h) <;> rw [hk] at h <;> simp_all
        have hdiff : req.xApiKey ≠ envApiKey := by rw [hk]; exact hne
        refine ⟨Or.inr ?_,
          ⟨{ success := some false, error := some "Invalid API key" }, ?_, rfl⟩, ?_⟩
          <;> simp [Auth.expressApp, Auth.validateApiKey, hpath, hx, hdiff]
  · intro envApiKey event px hpost
    have hopt : event.httpMethod ≠ "OPTIONS" := by rw [hpost]; decide
    constructor
    · intro hnone
      have hval : validateApiKey envApiKey event.xApiKey = .error "API key is required" := by
        simp [validateApiKey, hnone]
      refine ⟨?_, ⟨{ success := some false, error := some "API key is required" }, ?_, rfl⟩, ?_⟩
        <;> simp [FI.handler, hopt, hpost, hval, FI.catchResponse, includes_api_key_required]
    · intro k hk hne
      by_cases hk0 : k = ""
      · subst hk0
        have hval : validateApiKey envApiKey event.xApiKey = .error "API key is required" := by
          simp [validateApiKey, hk]
        refine ⟨?_, ⟨{ success := some false, error := some "API key is required" }, ?_, rfl⟩, ?_⟩
          <;> simp [FI.handler, hopt, hpost, hval, FI.catchResponse, includes_api_key_required]
      · have hx : ¬(event.xApiKey = none ∨ event.xApiKey = some "") := by
          rintro (h | h) <;> rw [hk] at h <;> simp_all
        have hdiff : event.xApiKey ≠ envApiKey := by rw [hk]; exact hne
        have hval : validateApiKey envApiKey event.xApiKey = .error "Invalid API key" := by
          simp [validateApiKey, hx, hdiff]
        refine ⟨?_, ⟨{ success := some false, error := some "Invalid API key" }, ?_, rfl⟩, ?_⟩
          <;> simp [FI.handler, hopt, hpost, hval, FI.catchResponse, includes_api_key_invalid]

/-- Witness for C4 at concrete requests (missing key on the middleware
path, wrong key on the Netlify handler path). -/
theorem c4_witness :
    (Auth.expressApp (some "sec") (.ok "t")
        ⟨"POST", "/api/transcript", none, some "u"⟩).1.statusCode = 401
    ∧ (Auth.expressApp (some "sec") (.ok "t")
        ⟨"POST", "/api/transcript", none, some "u"⟩).2 = []
    ∧ (FI.handler (some "sec") ⟨"POST", some "wrong", some "u"⟩
        ⟨true, "abc", .ok (), .ok "t"⟩).1.statusCode = 401
    ∧ (FI.handler (some "sec") ⟨"POST", some "wrong", some "u"⟩
        ⟨true, "abc", .ok (), .ok "t"⟩).2 = [] := by
  have h1 := (c4_auth_before_network.1 (some "sec")
    ⟨"POST", "/api/transcript", none, some "u"⟩ (.ok "t") (by decide)).1 rfl
  have h2 := ((c4_auth_before_network.2 (some "sec") ⟨"POST", some "wrong", some "u"⟩
    ⟨true, "abc", .ok (), .ok "t"⟩ rfl).2 "wrong" rfl (by decide))
  exact ⟨h1.1, h1.2.2, h2.1, h2.2.2⟩

/-! ## Claim C6 -/

section JoinLemmas

theorem foldl_space_data (ts : List String) (s : String) :
    (ts.foldl (fun acc t => acc ++ t ++ " ") s).data
      = s.data ++ joinTrailL (ts.map String.data) := by
  induction ts generalizing s with
  | nil => simp [joinTrailL]
  | cons t ts ih =>
    rw [List.foldl_cons, ih, List.map_cons, joinTrailL]
    rw [string_data_append, string_data_append]
    simp

theorem joinTrailL_eq_joinSpaceL {m : List (List Char)} (h : m ≠ []) :
    joinTrailL m = joinSpaceL m ++ [' '] := by
  induction m with
  | nil => exact absurd rfl h
  | cons t ts ih =>
    cases ts with
    | nil => rfl
    | cons u us =>
      rw [joinTrailL, ih (by simp), show joinSpaceL (t :: u :: us) = t ++ ' ' :: joinSpaceL (u :: us) from rfl]
      simp

theorem dropWhile_append_of_all {p : Char → Bool} {l1 : List Char} (l2 : List Char)
    (h : ∀ c ∈ l1, p c = true) :
    (l1 ++ l2).dropWhile p = l2.dropWhile p := by
  induction l1 with
  | nil => rfl
  | cons c cs ih =>
    rw [List.cons_append, List.dropWhile_cons]
    simp [h c (by simp), ih (fun d hd => h d (by simp [hd]))]

theorem dropWhile_append_of_stuck {p : Char → Bool} {l1 : List Char} (l2 : List Char)
    (h : l1.dropWhile p ≠ []) :
    (l1 ++ l2).dropWhile p = l1.dropWhile p ++ l2 := by
  induction l1 with
  | nil => exact absurd rfl h
  | cons c cs ih =>
    simp only [List.cons_append, List.dropWhile_cons] at h ⊢
    by_cases hc : p c = true
    · simp only [hc, if_true] at h ⊢
      exact ih h
    · have hc' : p c = false := by simpa using hc
      simp [hc']

theorem trimCharsL_append_space (l : List Char) :
    trimCharsL (l ++ [' ']) = trimCharsL l := by
  unfold trimCharsL
  by_cases hall : ∀ c ∈ l, isWs c = true
  · have h1 : l.dropWhile isWs = [] := by
      rw [List.dropWhile_eq_nil_iff]
      intro x hx; simpa using hall x hx
    have h2 : (l ++ [' ']).dropWhile isWs = [] := by
      rw [dropWhile_append_of_all _ hall]; rfl
    simp [h1, h2]
  · push_neg at hall
    have h1 : l.dropWhile isWs ≠ [] := by
      obtain ⟨c, hc, hpc⟩ := hall
      intro hcontra
      rw [List.dropWhile_eq_nil_iff] at hcontra
      exact hpc (hcontra c hc)
    rw [dropWhile_append_of_stuck _ h1]
    rw [List.reverse_append]
    show (List.dropWhile isWs (' ' :: (l.dropWhile isWs).reverse)).reverse = _
    rw [List.dropWhile_cons]
    simp [isWs]

theorem assembleTranscript_eq_joinSpace (partTranscripts : List String) :
    P3.assembleTranscript partTranscripts = jsTrim (joinSpace partTranscripts) := by
  show jsTrim _ = jsTrim _
  unfold jsTrim
  apply congrArg String.mk
  rw [foldl_space_data]
  show trimCharsL ([] ++ joinTrailL (partTranscripts.map String.data))
      = trimCharsL (joinSpaceL (partTranscripts.map String.data))
  rw [List.nil_append]
  cases hm : partTranscripts.map String.data with
  | nil => rfl
  | cons t ts => rw [joinTrailL_eq_joinSpaceL (by simp), trimCharsL_append_space]

end JoinLemmas

section ChunkLemmas

theorem sum_map_range_succ (f : ℕ → ℚ) (n : ℕ) :
    ((List.range (n + 1)).map f).sum = ((List.range n).map f).sum + f n := by
  rw [List.range_succ]
  simp

theorem sum_map_range_const (c : ℚ) (m : ℕ) :
    ((List.range m).map (fun _ => c)).sum = m * c := by
  induction m with
  | zero => simp
  | succ k ih =>
    rw [sum_map_range_succ, ih]
    push_cast
    ring

end ChunkLemmas

/-- C6: when the audio duration `d` exceeds the 1800-second ceiling,
`splitAudio` plans exactly `⌈d / 1800⌉` chunks, chunk `i` starting at
`i * 1800` with duration `min 1800 (d - i * 1800)`; the chunks are
sequential (each starts where the previous one ends), non-degenerate, and
jointly cover the whole duration; and the handler's final transcript is
the per-chunk transcriptions joined in chunk order by single spaces and
trimmed. -/
theorem c6_split_and_join (d : ℚ) (hd : 1800 < d) :
    ∃ chunks : List (ℚ × ℚ),
      P3.splitAudioPlan d 1800 = .parts chunks
      ∧ chunks.length = (⌈d / 1800⌉).toNat
      ∧ chunks = (List.range (⌈d / 1800⌉).toNat).map
          (fun i : ℕ => ((i : ℚ) * 1800, min 1800 (d - (i : ℚ) * 1800)))
      ∧ chunks[0]? = some (0, 1800)
      ∧ (∀ i c1 c2, chunks[i]? = some c1 → chunks[i + 1]? = some c2 → c2.1 = c1.1 + c1.2)
      ∧ (∀ c ∈ chunks, 0 < c.2)
      ∧ (chunks.map Prod.snd).sum = d
      ∧ (∀ partTranscripts : List String,
          P3.assembleTranscript partTranscripts = jsTrim (joinSpace partTranscripts)) := by
  have hpos : (0 : ℚ) < 1800 := by norm_num
  have hc1 : (1 : ℤ) < ⌈d / 1800⌉ := by
    rw [Int.lt_ceil]
    push_cast
    exact (one_lt_div hpos).mpr hd
  set n := (⌈d / 1800⌉).toNat with hn
  have hncast : ((n : ℤ)) = ⌈d / 1800⌉ := Int.toNat_of_nonneg (by omega)
  have hn2 : 2 ≤ n := by omega
  have hQcast : ((n : ℚ)) = ((⌈d / 1800⌉ : ℤ) : ℚ) := by exact_mod_cast congrArg Int.cast hncast
  have hub : d ≤ (n : ℚ) * 1800 := by
    have h1 : d / 1800 ≤ ((⌈d / 1800⌉ : ℤ) : ℚ) := Int.le_ceil _
    rw [← hQcast] at h1
    calc d = d / 1800 * 1800 := by field_simp
      _ ≤ (n : ℚ) * 1800 := mul_le_mul_of_nonneg_right h1 (by norm_num)
  have hlb : ((n : ℚ) - 1) * 1800 < d := by
    have h1 : ((⌈d / 1800⌉ : ℤ) : ℚ) < d / 1800 + 1 := Int.ceil_lt_add_one _
    rw [← hQcast] at h1
    have h2 : (n : ℚ) - 1 < d / 1800 := by linarith
    calc ((n : ℚ) - 1) * 1800 < d / 1800 * 1800 := mul_lt_mul_of_pos_right h2 hpos
      _ = d := by field_simp
  have hdur_full : ∀ i : ℕ, i + 1 < n → min (1800 : ℚ) (d - (i : ℚ) * 1800) = 1800 := by
    intro i hi
    apply min_eq_left
    have h2 : ((i : ℚ) + 1) ≤ (n : ℚ) - 1 := by
      have : (i : ℕ) + 2 ≤ n := by omega
      have := (Nat.cast_le (α := ℚ)).mpr this
      push_cast at this
      linarith
    have h3 : ((i : ℚ) + 1) * 1800 ≤ ((n : ℚ) - 1) * 1800 :=
      mul_le_mul_of_nonneg_right h2 (by norm_num)
    nlinarith
  have hplan : P3.splitAudioPlan d 1800 = .parts ((List.range n).map
      (fun i : ℕ => ((i : ℚ) * 1800, min 1800 (d - (i : ℚ) * 1800)))) := by
    unfold P3.splitAudioPlan
    rw [← hn, if_neg (by omega)]
  refine ⟨_, hplan, by simp, rfl, ?_, ?_, ?_, ?_, assembleTranscript_eq_joinSpace⟩
  · rw [List.getElem?_map, List.getElem?_range (show 0 < n by omega)]
    norm_num [min_eq_left hd.le]
  · intro i c1 c2 h1 h2
    have hi1 : i + 1 < n := by
      rcases List.getElem?_eq_some.mp h2 with ⟨hlt, _⟩
      simpa using hlt
    have hi0 : i < n := by omega
    rw [List.getElem?_map, List.getElem?_range hi0] at h1
    rw [List.getElem?_map, List.getElem?_range hi1] at h2
    simp only [Option.map_some'] at h1 h2
    injection h1 with e1
    injection h2 with e2
    rw [← e1, ← e2]
    dsimp only
    rw [hdur_full i hi1]
    push_cast
    ring
  · intro c hc
    rw [List.mem_map] at hc
    obtain ⟨i, hi, rfl⟩ := hc
    rw [List.mem_range] at hi
    show (0 : ℚ) < min 1800 (d - (i : ℚ) * 1800)
    rw [lt_min_iff]
    refine ⟨by norm_num, ?_⟩
    have h2 : (i : ℚ) ≤ (n : ℚ) - 1 := by
      have : (i : ℕ) + 1 ≤ n := hi
      have := (Nat.cast_le (α := ℚ)).mpr this
      push_cast at this
      linarith
    have h3 : (i : ℚ) * 1800 ≤ ((n : ℚ) - 1) * 1800 :=
      mul_le_mul_of_nonneg_right h2 (by norm_num)
    linarith
  · obtain ⟨m, hm⟩ : ∃ m, n = m + 1 := ⟨n - 1, by omega⟩
    rw [List.map_map]
    have hcomp : (Prod.snd ∘ fun i : ℕ => ((i : ℚ) * 1800, min 1800 (d - (i : ℚ) * 1800)))
        = fun i : ℕ => min (1800 : ℚ) (d - (i : ℚ) * 1800) := rfl
    rw [hcomp, hm, sum_map_range_succ]
    have hcongr : (List.range m).map (fun i : ℕ => min (1800 : ℚ) (d - (i : ℚ) * 1800))
        = (List.range m).map (fun _ => (1800 : ℚ)) := by
      apply List.map_congr_left
      intro i hi
      rw [List.mem_range] at hi
      exact hdur_full i (by omega)
    rw [hcongr, sum_map_range_const]
    have hlast : min (1800 : ℚ) (d - (m : ℚ) * 1800) = d - (m : ℚ) * 1800 := by
      apply min_eq_right
      have h1 : ((n : ℚ)) = (m : ℚ) + 1 := by rw [hm]; push_cast; ring
      rw [h1] at hub
      linarith
    rw [hlast]
    ring

/-- Witness for C6 at the claim's 45-minute example (2700 seconds with the
1800-second ceiling gives two chunks covering the duration). -/
theorem c6_witness :
    (∃ chunks, P3.splitAudioPlan 2700 1800 = .parts chunks
      ∧ chunks.length = (⌈(2700 : ℚ) / 1800⌉).toNat
      ∧ (chunks.map Prod.snd).sum = 2700)
    ∧ P3.assembleTranscript ["part one", "part two"]
        = jsTrim (joinSpace ["part one", "part two"]) := by
  obtain ⟨chunks, h1, h2, _, _, _, _, h7, h8⟩ := c6_split_and_join 2700 (by norm_num)
  exact ⟨⟨chunks, h1, h2, h7⟩, h8 ["part one", "part two"]⟩

/-! ## Claim C7 -/

section CleanupLemmas

theorem contains_of_mem {a : String} {l : List String} (h : a ∈ l) :
    l.contains a = true :=
  List.elem_iff.mpr h

theorem partPath_data (i : ℕ) :
    (P3.partPath i).data
      = "/tmp/audio".data ++ ("-part" ++ toString (i + 1) ++ ".mp3").data := by
  have h0 : (P3.partPath i).data
      = "/tmp/audio".data ++ (("-part" ++ toString (i + 1) ++ ".mp3").data ++ []) := rfl
  rw [h0, List.append_nil]

theorem partPath_ne_main (i : ℕ) : P3.partPath i ≠ P3.mainAudioPath := by
  intro h
  have hd := congrArg String.data h
  rw [partPath_data] at hd
  have hm : P3.mainAudioPath.data = "/tmp/audio".data ++ ".mp3".data := rfl
  rw [hm] at hd
  have h2 := List.append_cancel_left hd
  have h3 : ("-part" ++ toString (i + 1) ++ ".mp3").data
      = "-part".data ++ ((toString (i + 1)).data ++ ".mp3".data) := by
    rw [string_data_append, string_data_append, List.append_assoc]
  rw [h3] at h2
  have h4 : List.head? ("-part".data ++ ((toString (i + 1)).data ++ ".mp3".data))
      = some '-' := rfl
  rw [h2] at h4
  exact absurd h4 (by decide)

/-- Attempting unlink on a covering set of paths (with reliable unlink)
empties the file set. -/
theorem cleanup_covers {uf : String → Bool} (hu : ∀ p, uf p = false)
    (attempted fs : List String) (hcov : ∀ q ∈ fs, q ∈ attempted) :
    P3.cleanupAttempt uf attempted fs = [] := by
  unfold P3.cleanupAttempt
  rw [List.filter_eq_nil_iff]
  intro q hq
  rw [contains_of_mem (hcov q hq), hu q]
  decide

/-- Exhaustive shape analysis of the part_003 `try` block started on an
empty temporary-file set. -/
theorem p3_run_cases (sc : P3.Scenario) :
    (∃ r, P3.run sc [] = (.earlyResponse r, [], []))
    ∨ (∃ e, P3.run sc [] = (.failed e, [], []))
    ∨ (∃ e, P3.run sc [] = (.failed e, [P3.mainAudioPath], []))
    ∨ (∃ e, P3.run sc [] = (.failed e, [P3.mainAudioPath], [P3.mainAudioPath]))
    ∨ (∃ t tr, P3.run sc [] = (.succeeded t tr, [P3.mainAudioPath], [P3.mainAudioPath]))
    ∨ (∃ e n, sc.splitFails = some e ∧ P3.run sc [] =
        (.failed e, ((List.range n).filter sc.chunkWritten).map P3.partPath
          ++ [P3.mainAudioPath], []))
    ∨ (∃ e n, P3.run sc [] =
        (.failed e, (List.range n).map P3.partPath ++ [P3.mainAudioPath],
         (List.range n).map P3.partPath))
    ∨ (∃ t tr n, P3.run sc [] =
        (.succeeded t tr, (List.range n).map P3.partPath ++ [P3.mainAudioPath],
         (List.range n).map P3.partPath)) := by
  unfold P3.run
  by_cases h1 : sc.httpMethod = "OPTIONS"
  · rw [if_pos h1]
    exact Or.inl ⟨_, rfl⟩
  rw [if_neg h1]
  by_cases h2 : sc.httpMethod ≠ "POST"
  · rw [if_pos h2]
    exact Or.inl ⟨_, rfl⟩
  rw [if_neg h2]
  cases hv : validateApiKey sc.envApiKey sc.xApiKey with
  | error e => exact Or.inr (Or.inl ⟨e, rfl⟩)
  | ok u =>
    cases u
    by_cases h3 : sc.bodyUrl = none ∨ sc.bodyUrl = some "" ∨ sc.urlValid = false
    · rw [if_pos h3]
      exact Or.inl ⟨_, rfl⟩
    rw [if_neg h3]
    cases hinfo : sc.infoOutcome with
    | error e => exact Or.inr (Or.inl ⟨e, rfl⟩)
    | ok title =>
      cases hdl : sc.downloadOutcome with
      | error e => exact Or.inr (Or.inl ⟨e, rfl⟩)
      | ok v =>
        cases v
        cases hproc : sc.processOutcome with
        | error e =>
          by_cases hpfile : sc.processPartialFile
          · simp only [hpfile, if_true]
            exact Or.inr (Or.inr (Or.inl ⟨e, rfl⟩))
          · simp only [hpfile, if_false]
            exact Or.inr (Or.inl ⟨e, rfl⟩)
        | ok w =>
          cases w
          cases hprobe : sc.probeOutcome with
          | error e => exact Or.inr (Or.inr (Or.inl ⟨e, rfl⟩))
          | ok duration =>
            by_cases hone : (⌈duration / 1800⌉).toNat = 1
            · simp only [hone, if_true]
              cases htr : P3.transcribeLoop sc.partTranscript 0 1 "" with
              | error e => exact Or.inr (Or.inr (Or.inr (Or.inl ⟨e, rfl⟩)))
              | ok tr =>
                exact Or.inr (Or.inr (Or.inr (Or.inr (Or.inl ⟨title, tr, rfl⟩))))
            · simp only [hone, if_false]
              cases hsf : sc.splitFails with
              | some e =>
                exact Or.inr (Or.inr (Or.inr (Or.inr (Or.inr (Or.inl
                  ⟨e, (⌈duration / 1800⌉).toNat, rfl, rfl⟩)))))
              | none =>
                cases htr : P3.transcribeLoop sc.partTranscript 0
                    (⌈duration / 1800⌉).toNat "" with
                | error e =>
                  exact Or.inr (Or.inr (Or.inr (Or.inr (Or.inr (Or.inr (Or.inl
                    ⟨e, (⌈duration / 1800⌉).toNat, rfl⟩))))))
                | ok tr =>
                  exact Or.inr (Or.inr (Or.inr (Or.inr (Or.inr (Or.inr (Or.inr
                    ⟨title, tr, (⌈duration / 1800⌉).toNat, rfl⟩))))))

end CleanupLemmas

theorem contains_singleton (a b : String) : ([a] : List String).contains b = (b == a) := by
  cases hba : b == a <;> simp [List.contains, List.elem, hba]

/-- C7 (amended, part_003 side): with reliable unlink, every temporary
file created by the part_003 handler has been deleted when it returns,
on the success path and on every failure path other than a failure
inside `splitAudio` after chunk files were written.  On any failure path
on which `audioParts` was never assigned (which includes exactly that
mid-split failure), the catch cleanup removes only the main re-encoded
file, so already-written chunk files survive.  And whenever the pipeline
fails with an error, the response is built from that original error,
regardless of what cleanup does. -/
theorem c7_part003_cleanup (sc : P3.Scenario) :
    ((∀ p, sc.unlinkFails p = false) → sc.splitFails = none →
        (P3.handler sc []).2 = [])
    ∧ (∀ e, (P3.run sc []).1 = .failed e →
        (P3.handler sc []).1 = P3.catchResponse e)
    ∧ (∀ e fsx, (∀ p, sc.unlinkFails p = false) →
        P3.run sc [] = (.failed e, fsx, []) →
        (P3.handler sc []).2 = fsx.filter (fun q => q != P3.mainAudioPath)) := by
  have hfilter_parts : ∀ n : ℕ, ((List.range n).map P3.partPath).filter
      (fun p => p != P3.mainAudioPath) = (List.range n).map P3.partPath := by
    intro n
    rw [List.filter_eq_self]
    intro p hp
    rcases List.mem_map.mp hp with ⟨i, _, rfl⟩
    exact bne_iff_ne.mpr (partPath_ne_main i)
  refine ⟨?_, ?_, ?_⟩
  · intro hu hsplit
    rcases p3_run_cases sc with ⟨r, hrun⟩ | ⟨e, hrun⟩ | ⟨e, hrun⟩ | ⟨e, hrun⟩
      | ⟨t, tr, hrun⟩ | ⟨e, n, hsf, hrun⟩ | ⟨e, n, hrun⟩ | ⟨t, tr, n, hrun⟩
    · unfold P3.handler
      rw [hrun]
    · unfold P3.handler
      rw [hrun]
      rfl
    · unfold P3.handler
      rw [hrun]
      exact cleanup_covers hu [P3.mainAudioPath] [P3.mainAudioPath] (fun q hq => hq)
    · unfold P3.handler
      rw [hrun]
      exact cleanup_covers hu [P3.mainAudioPath] [P3.mainAudioPath] (fun q hq => hq)
    · unfold P3.handler
      rw [hrun]
      dsimp only
      rw [show ((P3.mainAudioPath ::
          ([P3.mainAudioPath].filter (fun p => p != P3.mainAudioPath))).any
            sc.unlinkFails) = false from by
          rw [List.any_eq_false]
          intro p _
          simp [hu p]]
      exact cleanup_covers hu [P3.mainAudioPath] [P3.mainAudioPath] (fun q hq => hq)
    · rw [hsplit] at hsf
      exact absurd hsf (by simp)
    · unfold P3.handler
      rw [hrun]
      dsimp only
      rw [show (((List.range n).map P3.partPath ++ [P3.mainAudioPath]).contains
          P3.mainAudioPath) = true from
          contains_of_mem (List.mem_append_right _ (List.mem_singleton.mpr rfl))]
      rw [if_pos rfl]
      rw [show ((List.range n).map P3.partPath).filter
            (fun p => p != P3.mainAudioPath &&
              ((List.range n).map P3.partPath ++ [P3.mainAudioPath]).contains p)
            = (List.range n).map P3.partPath from by
          rw [List.filter_eq_self]
          intro p hp
          rcases List.mem_map.mp hp with ⟨i, _, rfl⟩
          rw [bne_iff_ne.mpr (partPath_ne_main i),
            contains_of_mem (List.mem_append_left _ hp)]
          rfl]
      exact cleanup_covers hu
        ([P3.mainAudioPath] ++ (List.range n).map P3.partPath)
        ((List.range n).map P3.partPath ++ [P3.mainAudioPath]) (fun q hq => by
          rcases List.mem_append.mp hq with hq1 | hq1
          · exact List.mem_append_right _ hq1
          · exact List.mem_append_left _ hq1)
    · unfold P3.handler
      rw [hrun]
      dsimp only
      rw [hfilter_parts n]
      rw [show ((P3.mainAudioPath :: (List.range n).map P3.partPath).any
          sc.unlinkFails) = false from by
        rw [List.any_eq_false]
        intro p _
        simp [hu p]]
      exact cleanup_covers hu
        (P3.mainAudioPath :: (List.range n).map P3.partPath)
        ((List.range n).map P3.partPath ++ [P3.mainAudioPath]) (fun q hq => by
          rcases List.mem_append.mp hq with hq1 | hq1
          · exact List.mem_cons_of_mem _ hq1
          · have hq2 := List.mem_singleton.mp hq1
            subst hq2
            exact List.mem_cons_self _ _)
  · intro e hflow
    rcases p3_run_cases sc with ⟨r, hrun⟩ | ⟨e2, hrun⟩ | ⟨e2, hrun⟩ | ⟨e2, hrun⟩
      | ⟨t, tr, hrun⟩ | ⟨e2, n, hsf, hrun⟩ | ⟨e2, n, hrun⟩ | ⟨t, tr, n, hrun⟩
    · rw [hrun] at hflow
      exact absurd hflow (by simp)
    · rw [hrun] at hflow
      have he : e2 = e := by simpa using hflow
      subst he
      unfold P3.handler
      rw [hrun]
    · rw [hrun] at hflow
      have he : e2 = e := by simpa using hflow
      subst he
      unfold P3.handler
      rw [hrun]
    · rw [hrun] at hflow
      have he : e2 = e := by simpa using hflow
      subst he
      unfold P3.handler
      rw [hrun]
    · rw [hrun] at hflow
      exact absurd hflow (by simp)
    · rw [hrun] at hflow
      have he : e2 = e := by simpa using hflow
      subst he
      unfold P3.handler
      rw [hrun]
    · rw [hrun] at hflow
      have he : e2 = e := by simpa using hflow
      subst he
      unfold P3.handler
      rw [hrun]
    · rw [hrun] at hflow
      exact absurd hflow (by simp)
  · intro e fsx hu hrun
    unfold P3.handler
    rw [hrun]
    dsimp only
    by_cases hc : fsx.contains P3.mainAudioPath = true
    · rw [hc, if_pos rfl]
      show P3.cleanupAttempt sc.unlinkFails
          ([P3.mainAudioPath] ++ List.filter
            (fun p => p != P3.mainAudioPath && fsx.contains p) []) fsx = _
      unfold P3.cleanupAttempt
      refine List.filter_congr ?_
      intro q hq
      show (!(([P3.mainAudioPath] : List String).contains q) || sc.unlinkFails q)
          = (q != P3.mainAudioPath)
      rw [hu q, contains_singleton, Bool.or_false]
      rfl
    · have hc2 : fsx.contains P3.mainAudioPath = false := by
        cases hx : fsx.contains P3.mainAudioPath
        · rfl
        · exact absurd hx hc
      rw [hc2, if_neg (by decide)]
      have hmain : P3.mainAudioPath ∉ fsx := by
        intro hm
        rw [contains_of_mem hm] at hc2
        exact absurd hc2 (by decide)
      calc P3.cleanupAttempt sc.unlinkFails
            ([] ++ List.filter (fun p => p != P3.mainAudioPath && fsx.contains p) []) fsx
          = fsx := List.filter_eq_self.mpr (fun a _ => by simp)
        _ = fsx.filter (fun q => q != P3.mainAudioPath) := by
            symm
            rw [List.filter_eq_self]
            intro a ha
            refine bne_iff_ne.mpr (fun he => hmain ?_)
            rw [← he]
            exact ha

/-- C7 counterexample: in the functions/transcribe.js variant, a request
whose download succeeds and whose transcription fails returns with the
downloaded temporary audio file still present — the catch path performs
no cleanup — contradicting "every temporary audio file ... has been
deleted by the time the handler returns ... on every failure path". -/
theorem c7_counterexample :
    (FT.handler ⟨some "sec", "POST", some "sec", some "https://youtu.be/abc", true,
        "abc", .ok (), .error "whisper failed"⟩ []).2 = ["/tmp/abc.mp3"]
    ∧ (FT.handler ⟨some "sec", "POST", some "sec", some "https://youtu.be/abc", true,
        "abc", .ok (), .error "whisper failed"⟩ []).1.statusCode = 500 := by decide

/-- Witness for C7 at a concrete failing scenario (the re-encoded file
exists and then ffprobe fails inside splitAudio): cleanup still empties
the temporary files and the response carries the original error. -/
theorem c7_witness :
    (P3.handler ⟨some "sec", "POST", some "sec", some "u", true, .ok "Title",
        .ok (), .ok (), false, .error "ffprobe failed", none, (fun _ => false),
        (fun _ => .ok "text"), (fun _ => false)⟩ []).2 = []
    ∧ (P3.handler ⟨some "sec", "POST", some "sec", some "u", true, .ok "Title",
        .ok (), .ok (), false, .error "ffprobe failed", none, (fun _ => false),
        (fun _ => .ok "text"), (fun _ => false)⟩ []).1
      = P3.catchResponse "ffprobe failed" :=
  ⟨(c7_part003_cleanup _).1 (fun _ => rfl) rfl,
   (c7_part003_cleanup _).2.1 "ffprobe failed" rfl⟩

/-! ## Claim C1 -/

section ScannerLemmas

theorem takeWhile_append_stop {p : Char → Bool} {xs : List Char} {y : Char}
    (ys : List Char) (hall : ∀ c ∈ xs, p c = true) (hy : p y = false) :
    (xs ++ y :: ys).takeWhile p = xs := by
  induction xs with
  | nil => simp [List.takeWhile_cons, hy]
  | cons a as ih =>
    rw [List.cons_append, List.takeWhile_cons, hall a (by simp), if_pos rfl]
    rw [ih (fun c hc => hall c (by simp [hc]))]

theorem dropWhile_append_stop {p : Char → Bool} {xs : List Char} {y : Char}
    (ys : List Char) (hall : ∀ c ∈ xs, p c = true) (hy : p y = false) :
    (xs ++ y :: ys).dropWhile p = y :: ys := by
  induction xs with
  | nil => simp [List.dropWhile_cons, hy]
  | cons a as ih =>
    rw [List.cons_append, List.dropWhile_cons]
    simp only [hall a (by simp), if_true]
    exact ih (fun c hc => hall c (by simp [hc]))

theorem dropWhile_head_false {p : Char → Bool} {l : List Char} {c : Char} {cs : List Char}
    (h : l.dropWhile p = c :: cs) : p c = false := by
  induction l with
  | nil => simp at h
  | cons a as ih =>
    rw [List.dropWhile_cons] at h
    by_cases ha : p a = true
    · simp only [ha, if_true] at h
      exact ih h
    · have ha' : p a = false := by simpa using ha
      simp only [ha', Bool.false_eq_true, if_false] at h
      injection h with h1 _
      subst h1
      exact ha'

theorem length_dropWhile_le (p : Char → Bool) (l : List Char) :
    (l.dropWhile p).length ≤ l.length := by
  induction l with
  | nil => simp
  | cons a as ih =>
    rw [List.dropWhile_cons]
    by_cases ha : p a = true
    · simp only [ha, if_true]
      exact le_trans ih (by simp)
    · have ha' : p a = false := by simpa using ha
      simp [ha']

theorem tryMatchText_nil : tryMatchText [] = none := rfl

theorem tryMatchText_length {l m rest : List Char}
    (h : tryMatchText l = some (m, rest)) : rest.length < l.length := by
  unfold tryMatchText at h
  cases h1 : dropLit "<text".data l with
  | none => rw [h1] at h; exact absurd h (by simp)
  | some r1 =>
    rw [h1] at h
    dsimp only at h
    cases h2 : r1.dropWhile (fun c => c != '>') with
    | nil => rw [h2] at h; exact absurd h (by simp)
    | cons c r3 =>
      rw [h2] at h
      dsimp only at h
      have hc : c = '>' := by
        have := dropWhile_head_false h2
        simpa using this
      rw [if_pos hc] at h
      cases h3 : dropLit "</text>".data (r3.dropWhile (fun c => c != '<')) with
      | none => rw [h3] at h; exact absurd h (by simp)
      | some rest' =>
        rw [h3] at h
        have hrest : rest' = rest := by
          have := h
          simp at this
          exact this.2
        subst hrest
        have e1 := dropLit_length h1
        have e2 : r3.length + 1 ≤ r1.length := by
          have := length_dropWhile_le (fun c => c != '>') r1
          rw [h2] at this
          simpa using this
        have e3 : (r3.dropWhile (fun c => c != '<')).length ≤ r3.length :=
          length_dropWhile_le _ _
        have e4 := dropLit_length h3
        have e5 : ("<text".data : List Char).length = 5 := rfl
        have e6 : ("</text>".data : List Char).length = 7 := rfl
        rw [e5] at e1
        rw [e6] at e4
        omega

theorem scanTextF_congr : ∀ (f1 f2 : ℕ) (l : List Char),
    l.length ≤ f1 → l.length ≤ f2 → scanTextF f1 l = scanTextF f2 l := by
  intro f1
  induction f1 with
  | zero =>
    intro f2 l h1 _
    have : l = [] := List.length_eq_zero.mp (by omega)
    subst this
    cases f2 <;> rfl
  | succ k ih =>
    intro f2 l h1 h2
    cases l with
    | nil => cases f2 <;> rfl
    | cons c cs =>
      cases f2 with
      | zero => simp at h2
      | succ k2 =>
        simp only [List.length_cons] at h1 h2
        show (match tryMatchText (c :: cs) with
          | some (m, rest) => m :: scanTextF k rest
          | none => scanTextF k cs)
          = (match tryMatchText (c :: cs) with
          | some (m, rest) => m :: scanTextF k2 rest
          | none => scanTextF k2 cs)
        cases hm : tryMatchText (c :: cs) with
        | some pr =>
          obtain ⟨m, rest⟩ := pr
          have hlen := tryMatchText_length hm
          simp only [List.length_cons] at hlen
          simp only
          rw [ih k2 rest (by omega) (by omega)]
        | none =>
          simp only
          exact ih k2 cs (by omega) (by omega)

theorem scanTextMatches_eq_cons {l m rest : List Char}
    (h : tryMatchText l = some (m, rest)) :
    scanTextMatches l = m :: scanTextMatches rest := by
  cases l with
  | nil => rw [tryMatchText_nil] at h; exact absurd h (by simp)
  | cons c cs =>
    have hlen := tryMatchText_length h
    show scanTextF (c :: cs).length (c :: cs) = _
    rw [show (c :: cs).length = cs.length + 1 from rfl]
    rw [show scanTextF (cs.length + 1) (c :: cs)
        = (match tryMatchText (c :: cs) with
           | some (m, rest) => m :: scanTextF cs.length rest
           | none => scanTextF cs.length cs) from rfl]
    rw [h]
    exact congrArg (m :: ·)
      (scanTextF_congr cs.length rest.length rest (by simp at hlen; omega) (le_refl _))

theorem findGt_through {xs : List Char} (ys : List Char) (h : ∀ c ∈ xs, c ≠ '>') :
    findGt (xs ++ '>' :: ys) = some ys := by
  induction xs with
  | nil => simp [findGt]
  | cons a as ih =>
    rw [List.cons_append]
    show (if a = '>' then some (as ++ '>' :: ys) else findGt (as ++ '>' :: ys)) = some ys
    rw [if_neg (h a (by simp))]
    exact ih (fun c hc => h c (by simp [hc]))

theorem findGt_length : ∀ {l rest : List Char}, findGt l = some rest →
    rest.length < l.length := by
  intro l
  induction l with
  | nil => intro rest h; simp [findGt] at h
  | cons a as ih =>
    intro rest h
    show rest.length < as.length + 1
    by_cases ha : a = '>'
    · rw [show findGt (a :: as) = if a = '>' then some as else findGt as from rfl,
        if_pos ha] at h
      have has : as = rest := by simpa using h
      subst has
      omega
    · rw [show findGt (a :: as) = if a = '>' then some as else findGt as from rfl,
        if_neg ha] at h
      have := ih h
      omega

theorem stripTagsF_congr : ∀ (f1 f2 : ℕ) (l : List Char),
    l.length ≤ f1 → l.length ≤ f2 → stripTagsF f1 l = stripTagsF f2 l := by
  intro f1
  induction f1 with
  | zero =>
    intro f2 l h1 _
    have : l = [] := List.length_eq_zero.mp (by omega)
    subst this
    cases f2 <;> rfl
  | succ k ih =>
    intro f2 l h1 h2
    cases l with
    | nil => cases f2 <;> rfl
    | cons c cs =>
      cases f2 with
      | zero => simp at h2
      | succ k2 =>
        show (if c = '<' then
            match findGt cs with
            | some rest => stripTagsF k rest
            | none => c :: stripTagsF k cs
          else c :: stripTagsF k cs)
          = (if c = '<' then
            match findGt cs with
            | some rest => stripTagsF k2 rest
            | none => c :: stripTagsF k2 cs
          else c :: stripTagsF k2 cs)
        by_cases hc : c = '<'
        · rw [if_pos hc, if_pos hc]
          cases hg : findGt cs with
          | some rest =>
            have := findGt_length hg
            exact ih k2 rest (by simp at h1 ⊢; omega) (by simp at h2 ⊢; omega)
          | none =>
            rw [ih k2 cs (by simp at h1 ⊢; omega) (by simp at h2 ⊢; omega)]
        · rw [if_neg hc, if_neg hc]
          rw [ih k2 cs (by simp at h1 ⊢; omega) (by simp at h2 ⊢; omega)]

theorem stripTags_cons_found {c : Char} {cs rest : List Char}
    (hc : c = '<') (h : findGt cs = some rest) :
    stripTags (c :: cs) = stripTags rest := by
  have hlen := findGt_length h
  show stripTagsF (c :: cs).length (c :: cs) = _
  rw [show (c :: cs).length = cs.length + 1 from rfl]
  rw [show stripTagsF (cs.length + 1) (c :: cs)
      = (if c = '<' then
          match findGt cs with
          | some rest => stripTagsF cs.length rest
          | none => c :: stripTagsF cs.length cs
        else c :: stripTagsF cs.length cs) from rfl]
  rw [if_pos hc, h]
  exact stripTagsF_congr cs.length rest.length rest (by omega) (le_refl _)

theorem stripTags_cons_other {c : Char} {cs : List Char} (hc : c ≠ '<') :
    stripTags (c :: cs) = c :: stripTags cs := by
  show stripTagsF (c :: cs).length (c :: cs) = _
  rw [show (c :: cs).length = cs.length + 1 from rfl]
  rw [show stripTagsF (cs.length + 1) (c :: cs)
      = (if c = '<' then
          match findGt cs with
          | some rest => stripTagsF cs.length rest
          | none => c :: stripTagsF cs.length cs
        else c :: stripTagsF cs.length cs) from rfl]
  rw [if_neg hc]
  rfl

theorem stripTags_append_clean {xs : List Char} (l : List Char)
    (h : ∀ c ∈ xs, c ≠ '<') :
    stripTags (xs ++ l) = xs ++ stripTags l := by
  induction xs with
  | nil => rfl
  | cons a as ih =>
    rw [List.cons_append, stripTags_cons_other (h a (by simp))]
    rw [ih (fun c hc => h c (by simp [hc]))]
    rfl

theorem stripTags_segment (a t : String) (ha : ∀ c ∈ a.data, c ≠ '>')
    (ht : ∀ c ∈ t.data, c ≠ '<') :
    stripTags (segChars (a, t)) = t.data := by
  have hcs : segChars (a, t)
      = '<' :: (("text".data ++ a.data) ++ '>' :: (t.data ++ "</text>".data)) := rfl
  rw [hcs]
  rw [stripTags_cons_found rfl (findGt_through _ (by
    intro c hc
    rcases List.mem_append.mp hc with hc1 | hc1
    · have htext : ∀ x ∈ "text".data, x ≠ '>' := by decide
      exact htext c hc1
    · exact ha c hc1))]
  rw [stripTags_append_clean _ ht]
  rw [show stripTags "</text>".data = [] from rfl, List.append_nil]

theorem tryMatchText_segment (a t : String) (rest : List Char)
    (ha : ∀ c ∈ a.data, c ≠ '>') (ht : ∀ c ∈ t.data, c ≠ '<') :
    tryMatchText (segChars (a, t) ++ rest) = some (segChars (a, t), rest) := by
  have h0 : segChars (a, t) ++ rest
      = "<text".data ++ (a.data ++ '>' :: (t.data ++ ("</text>".data ++ rest))) := by
    show ("<text".data ++ a.data ++ '>' :: (t.data ++ "</text>".data)) ++ rest = _
    simp [List.append_assoc]
  rw [show tryMatchText (segChars (a, t) ++ rest)
      = (match dropLit "<text".data (segChars (a, t) ++ rest) with
        | none => none
        | some r1 =>
          let attrs := r1.takeWhile (fun c => c != '>')
          match r1.dropWhile (fun c => c != '>') with
          | [] => none
          | c :: r3 =>
            if c = '>' then
              let inner := r3.takeWhile (fun c => c != '<')
              match dropLit "</text>".data (r3.dropWhile (fun c => c != '<')) with
              | none => none
              | some rest =>
                some ("<text".data ++ attrs ++ '>' :: (inner ++ "</text>".data), rest)
            else none) from rfl]
  rw [h0, dropLit_self]
  dsimp only
  have hband : ∀ c ∈ a.data, (c != '>') = true := fun c hc => bne_iff_ne.mpr (ha c hc)
  have hbt : ∀ c ∈ t.data, (c != '<') = true := fun c hc => bne_iff_ne.mpr (ht c hc)
  rw [takeWhile_append_stop _ hband (by decide),
    dropWhile_append_stop _ hband (by decide)]
  dsimp only
  rw [if_pos rfl]
  have h1 : t.data ++ ("</text>".data ++ rest)
      = t.data ++ '<' :: ("/text>".data ++ rest) := rfl
  rw [h1]
  rw [takeWhile_append_stop _ hbt (by decide), dropWhile_append_stop _ hbt (by decide)]
  rw [show ('<' :: ("/text>".data ++ rest)) = "</text>".data ++ rest from rfl,
    dropLit_self]
  rfl

theorem scan_mkXmlL (segs : List (String × String))
    (h : ∀ p ∈ segs, (∀ c ∈ p.1.data, c ≠ '>') ∧ (∀ c ∈ p.2.data, c ≠ '<')) :
    scanTextMatches (mkXmlL segs) = segs.map segChars := by
  induction segs with
  | nil => rfl
  | cons p ps ih =>
    obtain ⟨a, t⟩ := p
    have h1 := h (a, t) (by simp)
    have htm : tryMatchText (segChars (a, t) ++ mkXmlL ps)
        = some (segChars (a, t), mkXmlL ps) :=
      tryMatchText_segment a t _ h1.1 h1.2
    rw [show mkXmlL ((a, t) :: ps) = segChars (a, t) ++ mkXmlL ps from rfl]
    rw [scanTextMatches_eq_cons htm]
    rw [ih (fun q hq => h q (by simp [hq]))]
    rfl

end ScannerLemmas

/-- C1 (amended): applied to a timed-text payload of `<text>` elements,
the decoder strips the markup, trims each segment, decodes the five
standard HTML entities by five successive global replacement passes in
the order `&amp;`, `&lt;`, `&gt;`, `&quot;`, `&#39;` (not a single pass:
`&amp;lt;` becomes `<`), drops segments that are empty after trimming,
and joins the rest with a single space; it performs no whitespace-run
collapsing on the result. -/
theorem c1_decoder_amended (segs : List (String × String))
    (h : ∀ p ∈ segs, (∀ c ∈ p.1.data, c ≠ '>') ∧ (∀ c ∈ p.2.data, c ≠ '<')) :
    Netlify.captionTranscriptOf (mkXml segs)
      = (if segs.length = 0 then none
         else some (joinSpace
           ((segs.map (fun p => Netlify.decodeEntities (jsTrim p.2))).filter
             (fun t => t.length > 0)))) := by
  have hscan : scanTextMatches (mkXml segs).data = segs.map segChars :=
    scan_mkXmlL segs h
  unfold Netlify.captionTranscriptOf
  rw [hscan]
  dsimp only
  have hclean : ((segs.map segChars).map String.mk).map Netlify.cleanSegment
      = segs.map (fun p => Netlify.decodeEntities (jsTrim p.2)) := by
    rw [List.map_map, List.map_map]
    apply List.map_congr_left
    intro p hp
    obtain ⟨a, t⟩ := p
    have h1 := h (a, t) hp
    show Netlify.cleanSegment (String.mk (segChars (a, t)))
      = Netlify.decodeEntities (jsTrim t)
    unfold Netlify.cleanSegment
    have hstrip : stripTagsStr (String.mk (segChars (a, t))) = t := by
      show (⟨stripTags (segChars (a, t))⟩ : String) = t
      rw [stripTags_segment a t h1.1 h1.2]
    rw [hstrip]
  rw [hclean]
  simp only [List.length_map]

/-- C1 counterexample: on the payload `<text>x  y &amp;lt; zzzz</text>`
the code's decoder produces `x  y < zzzz` (two spaces survive, and the
two-stage replacement turns `&amp;lt;` into `<`), while the decoder the
claim describes (single pass, whitespace collapsed) would produce
`x y &lt; zzzz`. -/
theorem c1_counterexample :
    Netlify.captionTranscriptOf "<text>x  y &amp;lt; zzzz</text>" = some "x  y < zzzz"
    ∧ specTranscriptOf "<text>x  y &amp;lt; zzzz</text>" = some "x y &lt; zzzz"
    ∧ Netlify.captionTranscriptOf "<text>x  y &amp;lt; zzzz</text>"
        ≠ specTranscriptOf "<text>x  y &amp;lt; zzzz</text>" := by decide

/-- Witness for C1 at a concrete two-segment payload (with an attribute,
an entity, and an inner double space that is preserved). -/
theorem c1_witness :
    Netlify.captionTranscriptOf
        (mkXml [(" start=\"0\"", "hello  world"), ("", "a&amp;b")])
      = some "hello  world a&b" := by
  rw [c1_decoder_amended [(" start=\"0\"", "hello  world"), ("", "a&amp;b")] (by decide)]
  decide

/-- Witness for C9 at a URL containing no recognized shape. -/
theorem c9_witness :
    Netlify.getVideoId "https://example.com/foo" = none
    ∧ (Netlify.handler (some "sec") ⟨"POST", some "sec", some "https://example.com/foo"⟩
        (.ok "t") (.ok "h")).statusCode = 400 :=
  ⟨(c9_no_shape_400 "sec" "https://example.com/foo" (by decide) (by decide)).1,
   ((c9_no_shape_400 "sec" "https://example.com/foo" (by decide) (by decide)).2
      (.ok "t") (.ok "h")).1⟩

end YT
